import Mathlib

/-!
# gorilla-sessions-bigcache: a session store backed by bigcache

A shallow embedding of `gsm.go` and `memcacher_interface.go`.

* Go values of type `interface{}` that may occur in `session.Values` are the
  inductive type `Value`; the type assertion `k.(string)` is `Value.asString`.
* Go maps are association lists with distinct keys (`AList`); the order of
  the entries stands for the iteration order `range` happens to use, so a
  statement for all maps is a statement for all iteration orders.
* Go strings and byte slices are `String`; `string(b)` and `[]byte(s)` are
  the identity.
* The collaborators are parameters: the cache client (`BigCacher`), the value
  storer (`ValueStorer`), and the libraries `securecookie`, `encoding/gob`,
  `encoding/json` (`Lib`).  Every call to the cache client and to the value
  storer is recorded in `World.calls`, every `log.Printf` in `World.logs`.
* A Go `panic` is the outcome `Outcome.panic`.
-/

namespace Gsb

/-! ## Data model -/

/-- Go values stored behind `interface{}` in a session.  `float64 n` is the
`float64` that holds the integer `n`, the value `encoding/json` decodes the
number `n` to. -/
inductive Value where
  | null
  | bool (b : Bool)
  | int (n : Int)
  | float64 (n : Int)
  | str (s : String)
  deriving DecidableEq, Repr

/-- The type assertion `ks, ok := k.(string)`. -/
def Value.asString : Value → Option String
  | Value.str s => some s
  | _ => none

/-- The Go type `map[interface{}]interface{}` of `session.Values`. -/
abbrev Values := AList (fun _ : Value => Value)

/-- The Go type `map[string]interface{}` used by the json store method. -/
abbrev StrMap := AList (fun _ : String => Value)

/-- Go `error` values: the one error `gsm.go` creates itself, and the errors
handed back by the collaborators. -/
inductive Error where
  | nonStringKey (k : Value)
  | external (msg : String)
  deriving DecidableEq, Repr

/-- The struct `sessions.Options`. -/
structure Options where
  Path : String
  Domain : String
  MaxAge : Int
  Secure : Bool
  HttpOnly : Bool
  deriving DecidableEq, Repr

/-- The struct `sessions.Session`; `name` is what `session.Name()` returns. -/
structure Session where
  ID : String
  Values : Values
  Options : Options
  IsNew : Bool
  name : String

/-- How a Go call ends: it returns, or it panics. -/
inductive Outcome (α : Type) where
  | ret (a : α)
  | panic (msg : String)
  deriving DecidableEq, Repr

deriving instance DecidableEq for Except

/-- Calls made to the cache client and to the value storer. -/
inductive Call where
  | Get (key : String)
  | Set (key val : String) (exp : Nat) (ocas : Nat)
  | GetValueForSessionName (name : String)
  | SetValueForSessionName (name value : String) (options : Options)
  deriving DecidableEq, Repr

/-- Whether a call is the cache client's `Set`. -/
def Call.isSet : Call → Bool
  | Call.Set _ _ _ _ => true
  | _ => false

/-- Whether a call is the cache client's `Get`. -/
def Call.isGet : Call → Bool
  | Call.Get _ => true
  | _ => false

/-- Whether a call is the value storer's `SetValueForSessionName`. -/
def Call.isSetValue : Call → Bool
  | Call.SetValueForSessionName _ _ _ => true
  | _ => false

/-- The interface `BigCacher` over a cache whose state has type `σ`.
`Get` returns `(string, error)`, `Set` returns `(cas uint64, err error)`. -/
structure BigCacher (σ : Type) where
  Get : σ → String → σ × String × Option Error
  Set : σ → String → String → Nat → Nat → σ × Nat × Option Error

/-- The interface `ValueStorer`: it reads the token from a request and writes
it to a response. -/
structure ValueStorer (Req Resp : Type) where
  GetValueForSessionName : Req → String → Except Error String
  SetValueForSessionName : Resp → String → String → Options → Option Error

/-- The library functions `gsm.go` calls.  `securecookie.EncodeMulti` and
`DecodeMulti` take an `interface{}`; they are used at a string (the session
ID) and at a values mapping, hence two pairs of functions.  A decoder takes
the current content of its destination and returns the new content together
with the error. -/
structure Lib (κ : Type) where
  EncodeMultiID : String → String → κ → Except Error String
  DecodeMultiID : String → String → String → κ → String × Option Error
  EncodeMultiValues : String → Values → κ → Except Error String
  DecodeMultiValues : String → String → Values → κ → Values × Option Error
  gobEncode : Values → Except Error String
  gobDecode : String → Values → Values × Option Error
  jsonMarshal : StrMap → Except Error String
  jsonUnmarshal : String → StrMap → StrMap × Option Error
  GenerateRandomKey : Nat → List Nat

/-- The Go type `StoreMethod`, a string. -/
abbrev StoreMethod := String

/-- The store method `securecookie` (security). -/
def StoreMethodSecureCookie : StoreMethod := "securecookie"

/-- The store method `gob` (speed). -/
def StoreMethodGob : StoreMethod := "gob"

/-- The store method `json` (simplicity): only string keys are allowed. -/
def StoreMethodJson : StoreMethod := "json"

/-- The struct `BigcacheStore`. -/
structure BigcacheStore (κ σ Req Resp : Type) where
  Codecs : κ
  Options : Options
  Client : BigCacher σ
  KeyPrefix : String
  Logging : Int
  StoreMethod : StoreMethod
  ValueStorer : ValueStorer Req Resp

/-- What a store acts on: the state of the cache behind `Client`, and the
record of the calls and of the log lines so far, oldest first. -/
structure World (σ : Type) where
  cache : σ
  calls : List Call
  logs : List String

/-! ## `encoding/base32` and `strings.TrimRight` -/

/-- The alphabet of `base32.StdEncoding`. -/
def encodeStd : List Char := "ABCDEFGHIJKLMNOPQRSTUVWXYZ234567".data

/-- The lookup `enc.encode[b&31]`. -/
def b32Char (b : Nat) : Char := encodeStd.getD (b &&& 31) 'A'

/-- The eight 5-bit groups of a quantum of five bytes, as `Encode` unpacks
them. -/
def quantum (s0 s1 s2 s3 s4 : Nat) : List Nat :=
  let s0 := s0 % 256
  let s1 := s1 % 256
  let s2 := s2 % 256
  let s3 := s3 % 256
  let s4 := s4 % 256
  [ s0 >>> 3,
    ((s0 <<< 2) &&& 31) ||| ((s1 >>> 6) &&& 31),
    (s1 >>> 1) &&& 31,
    ((s1 <<< 4) &&& 31) ||| ((s2 >>> 4) &&& 31),
    ((s2 <<< 1) &&& 31) ||| (s3 >>> 7),
    (s3 >>> 2) &&& 31,
    ((s3 <<< 3) &&& 31) ||| (s4 >>> 5),
    s4 &&& 31 ]

/-- The padding character of `base32.StdEncoding`. -/
def padChar : Char := '='

/-- `base32.StdEncoding.EncodeToString`: five bytes give eight characters;
a last quantum of 1, 2, 3 or 4 bytes gives 2, 4, 5 or 7 characters and is
filled up to eight with `=`. -/
def EncodeToString : List Nat → List Char
  | [] => []
  | [s0] => ((quantum s0 0 0 0 0).take 2).map b32Char ++ List.replicate 6 padChar
  | [s0, s1] => ((quantum s0 s1 0 0 0).take 4).map b32Char ++ List.replicate 4 padChar
  | [s0, s1, s2] => ((quantum s0 s1 s2 0 0).take 5).map b32Char ++ List.replicate 3 padChar
  | [s0, s1, s2, s3] =>
      ((quantum s0 s1 s2 s3 0).take 7).map b32Char ++ List.replicate 1 padChar
  | s0 :: s1 :: s2 :: s3 :: s4 :: src =>
      (quantum s0 s1 s2 s3 s4).map b32Char ++ EncodeToString src

/-- `strings.TrimRight(s, cutset)`: drops the trailing characters of `s` that
occur in `cutset`. -/
def TrimRight (s : List Char) (cutset : List Char) : List Char :=
  (s.reverse.dropWhile (fun c => cutset.contains c)).reverse

/-- A character of the base32 alphabet: `A`-`Z` or `2`-`7`. -/
def isBase32Char (c : Char) : Bool :=
  (65 ≤ c.toNat && c.toNat ≤ 90) || (50 ≤ c.toNat && c.toNat ≤ 55)

/-- The expression `strings.TrimRight(base32.StdEncoding.EncodeToString(key), "=")`
of `Save`. -/
def newID (key : List Nat) : String :=
  String.mk (TrimRight (EncodeToString key) ['='])

/-! ## `memcacher_interface.go` -/

/-- The client `*bigcache.BigCache` over a state of type `σ`:
`Get(key) ([]byte, error)` and `Set(key, entry) error`. -/
structure BigCache (σ : Type) where
  Get : σ → String → σ × Except Error String
  Set : σ → String → String → σ × Option Error

/-- The methods `Get` and `Set` of `GoBigcacher`, the wrapper of a bigcache
client that implements `BigCacher`. -/
def GoBigcacher {σ : Type} (client : BigCache σ) : BigCacher σ where
  Get := fun st key =>
    match client.Get st key with
    | (st1, Except.ok v) => (st1, v, none)
    | (st1, Except.error err) => (st1, "", some err)
  Set := fun st key val _exp ocas =>
    match client.Set st key val with
    | (st1, err) => (st1, ocas, err)

/-! ## `gsm.go` -/

section Store

variable {κ σ Req Resp : Type}

/-- The conversion `uint32(n)` of a Go `int`: the low 32 bits. -/
def uint32 (n : Int) : Nat := (n % 2 ^ 32).toNat

/-- A call of `log.Printf`; of the line only the fixed part is recorded. -/
def logPrintf (w : World σ) (line : String) : World σ :=
  { w with logs := w.logs ++ [line] }

/-- The statement `if s.Logging > 0 { log.Printf(...) }`. -/
def logIf (s : BigcacheStore κ σ Req Resp) (w : World σ) (line : String) : World σ :=
  if s.Logging > 0 then logPrintf w line else w

/-- The call `s.Client.Set(key, val, exp, ocas)`; the returned cas is dropped
by every caller. -/
def clientSet (s : BigcacheStore κ σ Req Resp) (w : World σ) (key val : String)
    (exp ocas : Nat) : World σ × Option Error :=
  match s.Client.Set w.cache key val exp ocas with
  | (st, _, err) =>
    ({ w with cache := st, calls := w.calls ++ [Call.Set key val exp ocas] }, err)

/-- The call `s.Client.Get(key)`. -/
def clientGet (s : BigcacheStore κ σ Req Resp) (w : World σ) (key : String) :
    World σ × String × Option Error :=
  match s.Client.Get w.cache key with
  | (st, val, err) => ({ w with cache := st, calls := w.calls ++ [Call.Get key] }, val, err)

/-- The loop of `save` for `StoreMethodJson`: it copies the entries into
`vals`, and returns the error at the first key that is not a string. -/
def jsonizeKeys : List (Sigma fun _ : Value => Value) → StrMap → Except Error StrMap
  | [], vals => Except.ok vals
  | ⟨k, v⟩ :: rest, vals =>
    match k.asString with
    | none => Except.error (Error.nonStringKey k)
    | some ks => jsonizeKeys rest (vals.insert ks v)

/-- The tail common to the three branches of `save`: the call of `Set`, the
log line, and the return of the error of `Set`. -/
def setAndReturn (s : BigcacheStore κ σ Req Resp) (w : World σ) (session : Session)
    (key val line : String) : World σ × Outcome (Option Error) :=
  match clientSet s w key val (uint32 session.Options.MaxAge) 0 with
  | (w1, err) =>
    let w2 := logIf s w1 line
    match err with
    | some e => (w2, Outcome.ret (some e))
    | none => (w2, Outcome.ret none)

/-- The method `save`: it writes the encoded `session.Values` using the
bigcache client. -/
def save (lib : Lib κ) (s : BigcacheStore κ σ Req Resp) (w : World σ) (session : Session) :
    World σ × Outcome (Option Error) :=
  let key := s.KeyPrefix ++ session.ID
  if s.StoreMethod = StoreMethodSecureCookie then
    match lib.EncodeMultiValues session.name session.Values s.Codecs with
    | Except.error err =>
      (logIf s w "set (method: securecookie, encoding error)", Outcome.ret (some err))
    | Except.ok encoded => setAndReturn s w session key encoded "set (method: securecookie)"
  else if s.StoreMethod = StoreMethodGob then
    match lib.gobEncode session.Values with
    | Except.error err =>
      (logIf s w "set (method: gob, encoding error)", Outcome.ret (some err))
    | Except.ok bufbytes => setAndReturn s w session key bufbytes "set (method: gob)"
  else if s.StoreMethod = StoreMethodJson then
    match jsonizeKeys session.Values.entries ∅ with
    | Except.error err =>
      (logPrintf w "set (method: json, encoding error)", Outcome.ret (some err))
    | Except.ok vals =>
      match lib.jsonMarshal vals with
      | Except.error err =>
        (logIf s w "set (method: json, encoding error)", Outcome.ret (some err))
      | Except.ok bufbytes => setAndReturn s w session key bufbytes "set (method: json)"
  else
    (w, Outcome.panic ("Unknown StoreMethod: " ++ s.StoreMethod))

/-- The loop `for k, v := range vals { session.Values[k] = v }` of `load`. -/
def mergeInto : List (Sigma fun _ : String => Value) → Values → Values
  | [], values => values
  | ⟨k, v⟩ :: rest, values => mergeInto rest (values.insert (Value.str k) v)

/-- The method `load`: it reads the cache entry and decodes its content into
`session.Values`.  The session after the call is returned with the outcome. -/
def load (lib : Lib κ) (s : BigcacheStore κ σ Req Resp) (w : World σ) (session : Session) :
    World σ × Session × Outcome (Option Error) :=
  let key := s.KeyPrefix ++ session.ID
  match clientGet s w key with
  | (w1, val, err) =>
    let w2 := logIf s w1 "get"
    match err with
    | some e => (w2, session, Outcome.ret (some e))
    | none =>
      if s.StoreMethod = StoreMethodSecureCookie then
        match lib.DecodeMultiValues session.name val session.Values s.Codecs with
        | (values, some e) =>
          (logIf s w2 "get (method: securecookie, decoding error)",
            { session with Values := values }, Outcome.ret (some e))
        | (values, none) => (w2, { session with Values := values }, Outcome.ret none)
      else if s.StoreMethod = StoreMethodGob then
        match lib.gobDecode val session.Values with
        | (values, some e) =>
          (logIf s w2 "get (method: gob, decoding error)",
            { session with Values := values }, Outcome.ret (some e))
        | (values, none) => (w2, { session with Values := values }, Outcome.ret none)
      else if s.StoreMethod = StoreMethodJson then
        match lib.jsonUnmarshal val ∅ with
        | (_, some e) =>
          (logIf s w2 "get (method: json, decoding error)", session, Outcome.ret (some e))
        | (vals, none) =>
          (w2, { session with Values := mergeInto vals.entries session.Values },
            Outcome.ret none)
      else
        (w2, session, Outcome.panic ("Unknown StoreMethod: " ++ s.StoreMethod))

/-- The function `sessions.NewSession(store, name)`. -/
def NewSession (name : String) (opts : Options) : Session :=
  { ID := "", Values := ∅, Options := opts, IsNew := false, name := name }

/-- The method `New`: it returns a session for the given name without adding
it to the registry. -/
def New (lib : Lib κ) (s : BigcacheStore κ σ Req Resp) (w : World σ) (r : Req)
    (name : String) : World σ × Outcome (Session × Option Error) :=
  let session := { NewSession name s.Options with IsNew := true }
  let w1 := { w with calls := w.calls ++ [Call.GetValueForSessionName name] }
  match s.ValueStorer.GetValueForSessionName r name with
  | Except.error _ => (w1, Outcome.ret (session, none))
  | Except.ok value =>
    match lib.DecodeMultiID name value session.ID s.Codecs with
    | (id, some err) => (w1, Outcome.ret ({ session with ID := id }, some err))
    | (id, none) =>
      match load lib s w1 { session with ID := id } with
      | (w2, _, Outcome.panic msg) => (w2, Outcome.panic msg)
      | (w2, session1, Outcome.ret (some err)) => (w2, Outcome.ret (session1, some err))
      | (w2, session1, Outcome.ret none) =>
        (w2, Outcome.ret ({ session1 with IsNew := false }, none))

/-- The method `Save`: it adds a single session to the response.  The session
after the call is returned with the outcome. -/
def Save (lib : Lib κ) (s : BigcacheStore κ σ Req Resp) (w : World σ) (_r : Req) (rw : Resp)
    (session : Session) : World σ × Session × Outcome (Option Error) :=
  let session :=
    if session.ID = "" then { session with ID := newID (lib.GenerateRandomKey 32) }
    else session
  match save lib s w session with
  | (w1, Outcome.panic msg) => (w1, session, Outcome.panic msg)
  | (w1, Outcome.ret (some err)) => (w1, session, Outcome.ret (some err))
  | (w1, Outcome.ret none) =>
    match lib.EncodeMultiID session.name session.ID s.Codecs with
    | Except.error err => (w1, session, Outcome.ret (some err))
    | Except.ok encoded =>
      let w2 :=
        { w1 with calls := w1.calls ++
            [Call.SetValueForSessionName session.name encoded session.Options] }
      match s.ValueStorer.SetValueForSessionName rw session.name encoded session.Options with
      | some err => (w2, session, Outcome.ret (some err))
      | none => (w2, session, Outcome.ret none)

end Store

/-! ## Notions used to state the properties -/

section Notions

variable {κ σ Req Resp : Type}

/-- Two Go maps are equal when every key has the same value, or none, in both. -/
def SameMap {α : Type} [DecidableEq α] (m1 m2 : AList (fun _ : α => Value)) : Prop :=
  ∀ k, m1.lookup k = m2.lookup k

/-- The three store methods `gsm.go` declares. -/
def KnownMethod (m : StoreMethod) : Prop :=
  m = StoreMethodSecureCookie ∨ m = StoreMethodGob ∨ m = StoreMethodJson

instance (m : StoreMethod) : Decidable (KnownMethod m) := by
  unfold KnownMethod
  infer_instance

/-- The payload `save` computes before it calls `Set`, for each of the three
store methods; `none` for any other method. -/
def encodePayload (lib : Lib κ) (s : BigcacheStore κ σ Req Resp) (session : Session) :
    Option (Except Error String) :=
  if s.StoreMethod = StoreMethodSecureCookie then
    some (lib.EncodeMultiValues session.name session.Values s.Codecs)
  else if s.StoreMethod = StoreMethodGob then
    some (lib.gobEncode session.Values)
  else if s.StoreMethod = StoreMethodJson then
    some (match jsonizeKeys session.Values.entries ∅ with
      | Except.error err => Except.error err
      | Except.ok vals => lib.jsonMarshal vals)
  else
    none

/-- The values `load` decodes from the cache entry `val` into a destination
that holds `dst`, with the error of the decoder, for each of the three store
methods; `none` for any other method. -/
def decodePayload (lib : Lib κ) (s : BigcacheStore κ σ Req Resp) (name val : String)
    (dst : Values) : Option (Values × Option Error) :=
  if s.StoreMethod = StoreMethodSecureCookie then
    some (lib.DecodeMultiValues name val dst s.Codecs)
  else if s.StoreMethod = StoreMethodGob then
    some (lib.gobDecode val dst)
  else if s.StoreMethod = StoreMethodJson then
    some (match lib.jsonUnmarshal val ∅ with
      | (_, some e) => (dst, some e)
      | (vals, none) => (mergeInto vals.entries dst, none))
  else
    none

/-- The cache returns what was last set under a key: a `Get` right after a
successful `Set` of `val` under `key` succeeds with `val`. -/
def ReturnsLastSet (c : BigCacher σ) : Prop :=
  ∀ (st : σ) (key val : String) (exp ocas : Nat),
    (c.Set st key val exp ocas).2.2 = none →
      (c.Get (c.Set st key val exp ocas).1 key).2 = (val, none)

/-- The token codec decodes the token it made for `(name, id)` back to `id`. -/
def TokenDecodes (lib : Lib κ) (s : BigcacheStore κ σ Req Resp) (name id : String) : Prop :=
  ∀ tok dst, lib.EncodeMultiID name id s.Codecs = Except.ok tok →
    lib.DecodeMultiID name tok dst s.Codecs = (id, none)

/-- The session after the first statement of `Save`: a session without an ID
gets one from the random source. -/
def assignID (lib : Lib κ) (session : Session) : Session :=
  if session.ID = "" then { session with ID := newID (lib.GenerateRandomKey 32) }
  else session

/-- The session `New` starts from: no values, the options of the store, and
`IsNew` set. -/
def freshSession (name : String) (opts : Options) (id : String) : Session :=
  { ID := id, Values := ∅, Options := opts, IsNew := true, name := name }

/-- The calls made since the record of calls had length `n`. -/
def callsSince {σ : Type} (n : Nat) (w : World σ) : List Call := w.calls.drop n

end Notions

/-! ## A small configuration to run the code on -/

/-- An in-memory bigcache client: the entries, newest first.  `Get` of an
absent key fails. -/
def memCache : BigCache (List (String × String)) where
  Get := fun st key =>
    match st.lookup key with
    | some v => (st, Except.ok v)
    | none => (st, Except.error (Error.external "Entry not found"))
  Set := fun st key val => ((key, val) :: st, none)

/-- A bigcache client whose `Set` always fails. -/
def brokenCache : BigCache (List (String × String)) where
  Get := fun st _ => (st, Except.error (Error.external "Entry not found"))
  Set := fun st _ _ => (st, some (Error.external "entry is bigger than max shard size"))

/-- A value storer that keeps the token in one header: the request is the
header's value, if any. -/
def headerStorer : ValueStorer (Option String) Unit where
  GetValueForSessionName := fun r _ =>
    match r with
    | some v => Except.ok v
    | none => Except.error (Error.external "header not found")
  SetValueForSessionName := fun _ _ _ _ => none

/-- The values of the `/set` handler of the example: `"foo"` is `"bar"`, and
`42` is `43`. -/
def exampleValues : Values :=
  (AList.insert (Value.int 42) (Value.int 43) ∅).insert (Value.str "foo") (Value.str "bar")

/-- Values with string keys only. -/
def stringKeyValues : Values := AList.insert (Value.str "foo") (Value.str "bar") ∅

/-- The string-keyed copy of `stringKeyValues`. -/
def stringKeyVals : StrMap := AList.insert "foo" (Value.str "bar") ∅

/-- Values with a number: `"n"` is the `int` 43. -/
def numberValues : Values := AList.insert (Value.str "n") (Value.int 43) ∅

/-- The string-keyed copy of `numberValues`. -/
def numberVals : StrMap := AList.insert "n" (Value.int 43) ∅

/-- A bigcache client that has evicted every entry by the time it is read:
`Set` succeeds, `Get` fails. -/
def forgetfulCache : BigCache (List (String × String)) where
  Get := fun st _ => (st, Except.error (Error.external "Entry not found"))
  Set := fun st _ _ => (st, none)

/-- The entries of a Go map as a list of pairs. -/
def pairs {α : Type} (m : AList (fun _ : α => Value)) : List (α × Value) :=
  m.entries.map (fun e => (e.1, e.2))

/-- A stand-in for the libraries.  A token is the name, a bar, and the ID;
it fails to encode when `codecs` is `false` (no codec configured).  The
payload codecs know the payloads of `exampleValues`, `stringKeyValues` and of
the empty mapping, and the json codec the payload of `numberValues`, whose
number it decodes to a `float64` as `encoding/json` does for a destination of
type `interface{}`.  The random source returns zero bytes. -/
def toyLib : Lib Bool where
  EncodeMultiID := fun name id codecs =>
    if codecs then Except.ok (String.mk (name.data ++ '|' :: id.data))
    else Except.error (Error.external "securecookie: no codecs provided")
  DecodeMultiID := fun name value dst _ =>
    if (name.data ++ ['|']).isPrefixOf value.data then
      (String.mk (value.data.drop (name.data.length + 1)), none)
    else (dst, some (Error.external "securecookie: the value is not valid"))
  EncodeMultiValues := fun _ values _ =>
    if pairs values = pairs exampleValues then Except.ok "sc:foo=bar,42=43"
    else if pairs values = pairs stringKeyValues then Except.ok "sc:foo=bar"
    else if pairs values = [] then Except.ok "sc:"
    else Except.error (Error.external "securecookie: the value is too long")
  DecodeMultiValues := fun _ val dst _ =>
    if val = "sc:foo=bar,42=43" then
      ((dst.insert (Value.int 42) (Value.int 43)).insert (Value.str "foo") (Value.str "bar"),
        none)
    else if val = "sc:foo=bar" then (dst.insert (Value.str "foo") (Value.str "bar"), none)
    else if val = "sc:" then (dst, none)
    else (dst, some (Error.external "securecookie: the value is not valid"))
  gobEncode := fun values =>
    if pairs values = pairs exampleValues then Except.ok "gob:foo=bar,42=43"
    else if pairs values = [] then Except.ok "gob:"
    else Except.error (Error.external "gob: type not registered for interface")
  gobDecode := fun val dst =>
    if val = "gob:foo=bar,42=43" then
      ((dst.insert (Value.int 42) (Value.int 43)).insert (Value.str "foo") (Value.str "bar"),
        none)
    else if val = "gob:" then (dst, none)
    else (dst, some (Error.external "gob: unexpected EOF"))
  jsonMarshal := fun vals =>
    if pairs vals = pairs stringKeyVals then Except.ok "json:foo=bar"
    else if pairs vals = pairs numberVals then Except.ok "json:n=43"
    else if pairs vals = [] then Except.ok "json:"
    else Except.error (Error.external "json: unsupported type")
  jsonUnmarshal := fun val dst =>
    if val = "json:foo=bar" then (dst.insert "foo" (Value.str "bar"), none)
    else if val = "json:n=43" then (dst.insert "n" (Value.float64 43), none)
    else if val = "json:" then (dst, none)
    else (dst, some (Error.external "invalid character looking for beginning of value"))
  GenerateRandomKey := fun n => List.replicate n 0

/-- The libraries with codecs configured with a minimum age, as by
`securecookie.MinAge`: a token is encoded as before, and refused by the
decoder while it is younger than the minimum age. -/
def minAgeLib : Lib Bool :=
  { toyLib with
    DecodeMultiID := fun _ _ dst _ =>
      (dst, some (Error.external "securecookie: timestamp is too new")) }

/-- The default options of a new store: path `/`, max-age 30 days. -/
def defaultOptions : Options :=
  { Path := "/", Domain := "", MaxAge := 86400 * 30, Secure := false, HttpOnly := false }

/-- A store over the in-memory cache with key prefix `sess_` and the given
store method. -/
def exampleStore (method : StoreMethod) :
    BigcacheStore Bool (List (String × String)) (Option String) Unit :=
  { Codecs := true, Options := defaultOptions, Client := GoBigcacher memCache,
    KeyPrefix := "sess_", Logging := 0, StoreMethod := method, ValueStorer := headerStorer }

/-- The world before any call: an empty cache. -/
def emptyWorld : World (List (String × String)) := { cache := [], calls := [], logs := [] }

/-- The ID made from 32 zero bytes. -/
def zeroID : String := "AAAAAAAAAAAAAAAAAAAAAAAAAAAAAAAAAAAAAAAAAAAAAAAAAAAA"

/-- The token `toyLib` makes for the session named `session-name` with the ID
`zeroID`. -/
def zeroToken : String :=
  "session-name|AAAAAAAAAAAAAAAAAAAAAAAAAAAAAAAAAAAAAAAAAAAAAAAAAAAA"

/-- The world after `New` on a request without a token. -/
def worldAfterNew : World (List (String × String)) :=
  (New toyLib (exampleStore "securecookie") emptyWorld none "session-name").1

/-- The outcome of `Save` for the session `New` returned, with the values of
the example set. -/
def savedExample : World (List (String × String)) × Session × Outcome (Option Error) :=
  Save toyLib (exampleStore "securecookie") worldAfterNew none ()
    { freshSession "session-name" defaultOptions "" with Values := exampleValues }

/-- The outcome of `Save`, with the given libraries and store, for the session
`New` returns on a request without a token over the empty world, with the
given values set. -/
def savedWith (lib : Lib Bool)
    (s : BigcacheStore Bool (List (String × String)) (Option String) Unit) (values : Values) :
    World (List (String × String)) × Session × Outcome (Option Error) :=
  Save lib s (New lib s emptyWorld none "session-name").1 none ()
    { freshSession "session-name" defaultOptions "" with Values := values }

/-- A session named `session-name` with the given ID and values. -/
def exampleSession (id : String) (values : Values) : Session :=
  { ID := id, Values := values, Options := defaultOptions, IsNew := true,
    name := "session-name" }


/-! ## Lemmas on the base32 encoding -/

theorem b32Char_isBase32 (b : Nat) : isBase32Char (b32Char b) = true := by
  have h : b &&& 31 < 32 := Nat.and_lt_two_pow b (by norm_num : 31 < 2 ^ 5)
  have key : ∀ i : Fin 32, isBase32Char (encodeStd.getD i.val 'A') = true := by decide
  exact key ⟨b &&& 31, h⟩

/-- The encoding is a run of alphabet characters followed by a run of `=`. -/
theorem EncodeToString_shape (src : List Nat) :
    ∃ (data : List Char) (pad : Nat),
      EncodeToString src = data ++ List.replicate pad padChar ∧
      (∀ c ∈ data, isBase32Char c = true) ∧
      data.length = (src.length * 8 + 4) / 5 := by
  induction src using EncodeToString.induct with
  | case1 => exact ⟨[], 0, by simp [EncodeToString], by simp, by simp⟩
  | case2 s0 =>
    refine ⟨((quantum s0 0 0 0 0).take 2).map b32Char, 6, by simp [EncodeToString], ?_, ?_⟩
    · intro c hc
      obtain ⟨b, -, rfl⟩ := List.mem_map.1 hc
      exact b32Char_isBase32 b
    · simp [quantum]
  | case3 s0 s1 =>
    refine ⟨((quantum s0 s1 0 0 0).take 4).map b32Char, 4, by simp [EncodeToString], ?_, ?_⟩
    · intro c hc
      obtain ⟨b, -, rfl⟩ := List.mem_map.1 hc
      exact b32Char_isBase32 b
    · simp [quantum]
  | case4 s0 s1 s2 =>
    refine ⟨((quantum s0 s1 s2 0 0).take 5).map b32Char, 3, by simp [EncodeToString], ?_, ?_⟩
    · intro c hc
      obtain ⟨b, -, rfl⟩ := List.mem_map.1 hc
      exact b32Char_isBase32 b
    · simp [quantum]
  | case5 s0 s1 s2 s3 =>
    refine ⟨((quantum s0 s1 s2 s3 0).take 7).map b32Char, 1, by simp [EncodeToString], ?_, ?_⟩
    · intro c hc
      obtain ⟨b, -, rfl⟩ := List.mem_map.1 hc
      exact b32Char_isBase32 b
    · simp [quantum]
  | case6 s0 s1 s2 s3 s4 src ih =>
    obtain ⟨data, pad, h1, h2, h3⟩ := ih
    refine ⟨(quantum s0 s1 s2 s3 s4).map b32Char ++ data, pad, ?_, ?_, ?_⟩
    · simp [EncodeToString, h1]
    · intro c hc
      rcases List.mem_append.1 hc with hc | hc
      · obtain ⟨b, -, rfl⟩ := List.mem_map.1 hc
        exact b32Char_isBase32 b
      · exact h2 c hc
    · simp only [List.length_append, List.length_map, h3, List.length_cons]
      simp [quantum]
      omega

theorem TrimRight_pad (data : List Char) (pad : Nat)
    (h : ∀ c ∈ data, isBase32Char c = true) :
    TrimRight (data ++ List.replicate pad padChar) ['='] = data := by
  unfold TrimRight
  rw [List.reverse_append, List.reverse_replicate]
  have hdrop : ∀ (n : Nat) (l : List Char),
      (List.replicate n padChar ++ l).dropWhile (fun c => ['='].contains c) =
        l.dropWhile (fun c => ['='].contains c) := by
    intro n l
    induction n with
    | zero => simp
    | succ n ih =>
      rw [List.replicate_succ, List.cons_append, List.dropWhile_cons]
      simp [padChar, ih]
  rw [hdrop]
  have hself : ∀ l : List Char, (∀ c ∈ l, isBase32Char c = true) →
      l.dropWhile (fun c => ['='].contains c) = l := by
    intro l hl
    cases l with
    | nil => rfl
    | cons a t =>
      have ha : isBase32Char a = true := hl a (List.mem_cons_self a t)
      have hne : a ≠ '=' := by
        rintro rfl
        revert ha
        decide
      rw [List.dropWhile_cons]
      simp [hne]
  rw [hself _ (fun c hc => h c (List.mem_reverse.1 hc)), List.reverse_reverse]

/-- The test vector of RFC 4648 for `foobar`, without the padding. -/
theorem newID_foobar : newID [102, 111, 111, 98, 97, 114] = "MZXW6YTBOI" := by decide

theorem newID_chars (key : List Nat) : ∀ c ∈ (newID key).data, isBase32Char c = true := by
  obtain ⟨data, pad, h1, h2, -⟩ := EncodeToString_shape key
  intro c hc
  have : (newID key).data = data := by
    simp only [newID]
    rw [h1, TrimRight_pad data pad h2]
  rw [this] at hc
  exact h2 c hc

theorem newID_length (key : List Nat) : (newID key).length = (key.length * 8 + 4) / 5 := by
  obtain ⟨data, pad, h1, h2, h3⟩ := EncodeToString_shape key
  simp only [newID, String.length]
  rw [h1, TrimRight_pad data pad h2, h3]

/-! ## Lemmas on `save`, `load`, `Save` and `New` -/

section Lemmas

variable {κ σ Req Resp : Type}

theorem gob_ne_securecookie : StoreMethodGob ≠ StoreMethodSecureCookie := by decide

theorem json_ne_securecookie : StoreMethodJson ≠ StoreMethodSecureCookie := by decide

theorem json_ne_gob : StoreMethodJson ≠ StoreMethodGob := by decide

theorem encodePayload_isSome (lib : Lib κ) (s : BigcacheStore κ σ Req Resp) (session : Session) :
    (encodePayload lib s session).isSome = true ↔ KnownMethod s.StoreMethod := by
  unfold encodePayload KnownMethod
  split_ifs with h1 h2 h3 <;> simp_all

theorem save_of_encode_error (lib : Lib κ) (s : BigcacheStore κ σ Req Resp) (w : World σ)
    (session : Session) (e : Error)
    (h : encodePayload lib s session = some (Except.error e)) :
    (save lib s w session).2 = Outcome.ret (some e) ∧
      (save lib s w session).1.calls = w.calls ∧
      (save lib s w session).1.cache = w.cache := by
  unfold encodePayload at h
  unfold save
  split_ifs at h ⊢ with h1 h2 h3
  · simp only [Option.some.injEq] at h
    simp only [h, logIf, logPrintf]
    split_ifs <;> simp
  · simp only [Option.some.injEq] at h
    simp only [h, logIf, logPrintf]
    split_ifs <;> simp
  · simp only [Option.some.injEq] at h
    cases hj : jsonizeKeys session.Values.entries ∅ with
    | error err =>
      simp only [hj, Except.error.injEq] at h
      simp [h, logPrintf]
    | ok vals =>
      simp only [hj] at h
      simp only [h, logIf, logPrintf]
      split_ifs <;> simp

theorem save_of_encode_ok (lib : Lib κ) (s : BigcacheStore κ σ Req Resp) (w : World σ)
    (session : Session) (b : String)
    (h : encodePayload lib s session = some (Except.ok b)) :
    (save lib s w session).1.calls =
        w.calls ++ [Call.Set (s.KeyPrefix ++ session.ID) b (uint32 session.Options.MaxAge) 0] ∧
      (save lib s w session).1.cache =
        (s.Client.Set w.cache (s.KeyPrefix ++ session.ID) b
          (uint32 session.Options.MaxAge) 0).1 ∧
      (save lib s w session).2 =
        Outcome.ret (s.Client.Set w.cache (s.KeyPrefix ++ session.ID) b
          (uint32 session.Options.MaxAge) 0).2.2 := by
  have tail : ∀ line : String,
      (setAndReturn s w session (s.KeyPrefix ++ session.ID) b line).1.calls =
        w.calls ++ [Call.Set (s.KeyPrefix ++ session.ID) b (uint32 session.Options.MaxAge) 0] ∧
      (setAndReturn s w session (s.KeyPrefix ++ session.ID) b line).1.cache =
        (s.Client.Set w.cache (s.KeyPrefix ++ session.ID) b
          (uint32 session.Options.MaxAge) 0).1 ∧
      (setAndReturn s w session (s.KeyPrefix ++ session.ID) b line).2 =
        Outcome.ret (s.Client.Set w.cache (s.KeyPrefix ++ session.ID) b
          (uint32 session.Options.MaxAge) 0).2.2 := by
    intro line
    unfold setAndReturn clientSet logIf logPrintf
    rcases hset : s.Client.Set w.cache (s.KeyPrefix ++ session.ID) b
      (uint32 session.Options.MaxAge) 0 with ⟨st, cas, err⟩
    cases err <;> (simp only []; split_ifs <;> simp)
  unfold encodePayload at h
  unfold save
  split_ifs at h ⊢ with h1 h2 h3
  · simp only [Option.some.injEq] at h
    simp only [h]
    exact tail _
  · simp only [Option.some.injEq] at h
    simp only [h]
    exact tail _
  · simp only [Option.some.injEq] at h
    cases hj : jsonizeKeys session.Values.entries ∅ with
    | error err => simp [hj] at h
    | ok vals =>
      simp only [hj] at h
      simp only [h]
      exact tail _

theorem save_of_unknown (lib : Lib κ) (s : BigcacheStore κ σ Req Resp) (w : World σ)
    (session : Session) (h : ¬ KnownMethod s.StoreMethod) :
    save lib s w session = (w, Outcome.panic ("Unknown StoreMethod: " ++ s.StoreMethod)) := by
  unfold KnownMethod at h
  push_neg at h
  unfold save
  simp [h.1, h.2.1, h.2.2]

theorem Save_cases (lib : Lib κ) (s : BigcacheStore κ σ Req Resp) (w : World σ) (r : Req)
    (rw : Resp) (session : Session) :
    (Save lib s w r rw session).2.1 = assignID lib session ∧
    match encodePayload lib s (assignID lib session) with
    | none =>
      (Save lib s w r rw session).1 = w ∧
        (Save lib s w r rw session).2.2 =
          Outcome.panic ("Unknown StoreMethod: " ++ s.StoreMethod)
    | some (Except.error e) =>
      (Save lib s w r rw session).2.2 = Outcome.ret (some e) ∧
        (Save lib s w r rw session).1.calls = w.calls ∧
        (Save lib s w r rw session).1.cache = w.cache
    | some (Except.ok b) =>
      (Save lib s w r rw session).1.cache =
          (s.Client.Set w.cache (s.KeyPrefix ++ (assignID lib session).ID) b
            (uint32 (assignID lib session).Options.MaxAge) 0).1 ∧
      match (s.Client.Set w.cache (s.KeyPrefix ++ (assignID lib session).ID) b
          (uint32 (assignID lib session).Options.MaxAge) 0).2.2 with
      | some e =>
        (Save lib s w r rw session).2.2 = Outcome.ret (some e) ∧
          (Save lib s w r rw session).1.calls =
            w.calls ++ [Call.Set (s.KeyPrefix ++ (assignID lib session).ID) b
              (uint32 (assignID lib session).Options.MaxAge) 0]
      | none =>
        match lib.EncodeMultiID (assignID lib session).name (assignID lib session).ID
            s.Codecs with
        | Except.error e =>
          (Save lib s w r rw session).2.2 = Outcome.ret (some e) ∧
            (Save lib s w r rw session).1.calls =
              w.calls ++ [Call.Set (s.KeyPrefix ++ (assignID lib session).ID) b
                (uint32 (assignID lib session).Options.MaxAge) 0]
        | Except.ok tok =>
          (Save lib s w r rw session).2.2 =
              Outcome.ret (s.ValueStorer.SetValueForSessionName rw (assignID lib session).name
                tok (assignID lib session).Options) ∧
            (Save lib s w r rw session).1.calls =
              w.calls ++ [Call.Set (s.KeyPrefix ++ (assignID lib session).ID) b
                  (uint32 (assignID lib session).Options.MaxAge) 0,
                Call.SetValueForSessionName (assignID lib session).name tok
                  (assignID lib session).Options] := by
  have hS : Save lib s w r rw session =
      match save lib s w (assignID lib session) with
      | (w1, Outcome.panic msg) => (w1, assignID lib session, Outcome.panic msg)
      | (w1, Outcome.ret (some err)) => (w1, assignID lib session, Outcome.ret (some err))
      | (w1, Outcome.ret none) =>
        match lib.EncodeMultiID (assignID lib session).name (assignID lib session).ID
            s.Codecs with
        | Except.error err => (w1, assignID lib session, Outcome.ret (some err))
        | Except.ok encoded =>
          match s.ValueStorer.SetValueForSessionName rw (assignID lib session).name encoded
              (assignID lib session).Options with
          | some err =>
            ({ w1 with calls := w1.calls ++
                [Call.SetValueForSessionName (assignID lib session).name encoded
                  (assignID lib session).Options] }, assignID lib session,
              Outcome.ret (some err))
          | none =>
            ({ w1 with calls := w1.calls ++
                [Call.SetValueForSessionName (assignID lib session).name encoded
                  (assignID lib session).Options] }, assignID lib session, Outcome.ret none) :=
    rfl
  generalize assignID lib session = session1 at hS ⊢
  cases hp : encodePayload lib s session1 with
  | none =>
    have hk : ¬ KnownMethod s.StoreMethod := by
      rw [← encodePayload_isSome lib s session1, hp]
      simp
    rw [hS, save_of_unknown lib s w session1 hk]
    simp
  | some res =>
    cases res with
    | error e =>
      obtain ⟨h1, h2, h3⟩ := save_of_encode_error lib s w session1 e hp
      rcases hsv : save lib s w session1 with ⟨w1, out⟩
      rw [hsv] at h1 h2 h3
      simp only at h1 h2 h3
      subst h1
      rw [hS, hsv]
      simp [h2, h3]
    | ok b =>
      obtain ⟨h1, h2, h3⟩ := save_of_encode_ok lib s w session1 b hp
      rcases hsv : save lib s w session1 with ⟨w1, out⟩
      rw [hsv] at h1 h2 h3
      simp only at h1 h2 h3
      subst h3
      rw [hS, hsv]
      cases hset : (s.Client.Set w.cache (s.KeyPrefix ++ session1.ID) b
          (uint32 session1.Options.MaxAge) 0).2.2 with
      | some e => simp [h1, h2, hset]
      | none =>
        cases htok : lib.EncodeMultiID session1.name session1.ID s.Codecs with
        | error e => simp [h1, h2, hset, htok]
        | ok tok =>
          cases hst : s.ValueStorer.SetValueForSessionName rw session1.name tok
              session1.Options with
          | some e => simp [h1, h2, hset, htok, hst]
          | none => simp [h1, h2, hset, htok, hst]

theorem load_cases (lib : Lib κ) (s : BigcacheStore κ σ Req Resp) (w : World σ)
    (session : Session) :
    (load lib s w session).1.calls = w.calls ++ [Call.Get (s.KeyPrefix ++ session.ID)] ∧
    (load lib s w session).1.cache = (s.Client.Get w.cache (s.KeyPrefix ++ session.ID)).1 ∧
    match (s.Client.Get w.cache (s.KeyPrefix ++ session.ID)).2.2 with
    | some e =>
      (load lib s w session).2.1 = session ∧
        (load lib s w session).2.2 = Outcome.ret (some e)
    | none =>
      match decodePayload lib s session.name
          (s.Client.Get w.cache (s.KeyPrefix ++ session.ID)).2.1 session.Values with
      | none =>
        (load lib s w session).2.1 = session ∧
          (load lib s w session).2.2 =
            Outcome.panic ("Unknown StoreMethod: " ++ s.StoreMethod)
      | some (values, err) =>
        (load lib s w session).2.1 = { session with Values := values } ∧
          (load lib s w session).2.2 = Outcome.ret err := by
  have hget : clientGet s w (s.KeyPrefix ++ session.ID) =
      ({ w with cache := (s.Client.Get w.cache (s.KeyPrefix ++ session.ID)).1,
                calls := w.calls ++ [Call.Get (s.KeyPrefix ++ session.ID)] },
        (s.Client.Get w.cache (s.KeyPrefix ++ session.ID)).2.1,
        (s.Client.Get w.cache (s.KeyPrefix ++ session.ID)).2.2) := rfl
  rw [load, hget]
  generalize (s.Client.Get w.cache (s.KeyPrefix ++ session.ID)).2.1 = val
  generalize (s.Client.Get w.cache (s.KeyPrefix ++ session.ID)).1 = st
  cases (s.Client.Get w.cache (s.KeyPrefix ++ session.ID)).2.2 with
  | some e => simp only [logIf, logPrintf]; split_ifs <;> simp
  | none =>
    unfold decodePayload
    by_cases h1 : s.StoreMethod = StoreMethodSecureCookie
    · rcases hd : lib.DecodeMultiValues session.name val session.Values s.Codecs
        with ⟨values, _ | e⟩ <;>
      · simp only [h1, hd, logIf, logPrintf]
        split_ifs <;> simp
    by_cases h2 : s.StoreMethod = StoreMethodGob
    · rcases hd : lib.gobDecode val session.Values with ⟨values, _ | e⟩ <;>
      · simp only [h2, gob_ne_securecookie, if_true, if_false, hd, logIf, logPrintf]
        split_ifs <;> simp
    by_cases h3 : s.StoreMethod = StoreMethodJson
    · rcases hd : lib.jsonUnmarshal val ∅ with ⟨vals, _ | e⟩ <;>
      · simp only [h3, json_ne_securecookie, json_ne_gob, if_true, if_false, hd, logIf,
          logPrintf]
        split_ifs <;> simp
    · simp only [h1, h2, h3, if_false, logIf, logPrintf]
      split_ifs <;> simp

theorem jsonizeKeys_error (entries : List (Sigma fun _ : Value => Value)) (vals : StrMap)
    (h : ∃ e ∈ entries, e.1.asString = none) :
    ∃ e ∈ entries, e.1.asString = none ∧
      jsonizeKeys entries vals = Except.error (Error.nonStringKey e.1) := by
  induction entries generalizing vals with
  | nil => simp at h
  | cons e rest ih =>
    obtain ⟨k, v⟩ := e
    cases hk : k.asString with
    | none => exact ⟨⟨k, v⟩, List.mem_cons_self _ _, hk, by simp [jsonizeKeys, hk]⟩
    | some ks =>
      have hrest : ∃ e ∈ rest, e.1.asString = none := by
        obtain ⟨e, he, hne⟩ := h
        rcases List.mem_cons.1 he with rfl | he
        · simp [hk] at hne
        · exact ⟨e, he, hne⟩
      obtain ⟨e, he, hne, hj⟩ := ih (vals.insert ks v) hrest
      exact ⟨e, List.mem_cons_of_mem _ he, hne, by simp [jsonizeKeys, hk, hj]⟩

theorem asString_eq_some {k : Value} {ks : String} (h : k.asString = some ks) :
    k = Value.str ks := by
  cases k <;> simp [Value.asString] at h
  rw [h]

theorem jsonizeKeys_ok (entries : List (Sigma fun _ : Value => Value)) (acc vals : StrMap)
    (hnd : entries.NodupKeys) (h : jsonizeKeys entries acc = Except.ok vals) :
    (∀ e ∈ entries, ∃ ks, e.1 = Value.str ks) ∧
    (∀ ks v, entries.dlookup (Value.str ks) = some v → vals.lookup ks = some v) ∧
    (∀ ks, entries.dlookup (Value.str ks) = none → vals.lookup ks = acc.lookup ks) := by
  induction entries generalizing acc with
  | nil =>
    simp only [jsonizeKeys, Except.ok.injEq] at h
    subst h
    simp
  | cons e rest ih =>
    obtain ⟨k, v⟩ := e
    cases hk : k.asString with
    | none => simp [jsonizeKeys, hk] at h
    | some k0 =>
      have hkeq := asString_eq_some hk
      subst hkeq
      simp only [jsonizeKeys, Value.asString] at h
      obtain ⟨hnotin, hrest⟩ := List.nodupKeys_cons.1 hnd
      obtain ⟨ih1, ih2, ih3⟩ := ih (acc.insert k0 v) hrest h
      have hnone : rest.dlookup (Value.str k0) = none := List.dlookup_eq_none.2 hnotin
      refine ⟨?_, ?_, ?_⟩
      · intro e he
        rcases List.mem_cons.1 he with rfl | he
        · exact ⟨k0, rfl⟩
        · exact ih1 e he
      · intro ks v1 hl
        by_cases hks : ks = k0
        · subst hks
          rw [List.dlookup_cons_eq] at hl
          simp only [Option.some.injEq] at hl
          subst hl
          rw [ih3 ks hnone, AList.lookup_insert]
        · have hne : Value.str ks ≠ Value.str k0 := fun hh => hks (Value.str.inj hh)
          rw [List.dlookup_cons_ne _ _ hne] at hl
          exact ih2 ks v1 hl
      · intro ks hl
        by_cases hks : ks = k0
        · subst hks
          rw [List.dlookup_cons_eq] at hl
          simp at hl
        · have hne : Value.str ks ≠ Value.str k0 := fun hh => hks (Value.str.inj hh)
          rw [List.dlookup_cons_ne _ _ hne] at hl
          rw [ih3 ks hl, AList.lookup_insert_ne hks]

theorem mergeInto_lookup (entries : List (Sigma fun _ : String => Value)) (values : Values)
    (hnd : entries.NodupKeys) :
    (∀ ks v, entries.dlookup ks = some v →
      (mergeInto entries values).lookup (Value.str ks) = some v) ∧
    (∀ k, (∀ ks, k = Value.str ks → entries.dlookup ks = none) →
      (mergeInto entries values).lookup k = values.lookup k) := by
  induction entries generalizing values with
  | nil => simp [mergeInto]
  | cons e rest ih =>
    obtain ⟨k0, v⟩ := e
    obtain ⟨hnotin, hrest⟩ := List.nodupKeys_cons.1 hnd
    obtain ⟨ih1, ih2⟩ := ih (values.insert (Value.str k0) v) hrest
    have hnone : rest.dlookup k0 = none := List.dlookup_eq_none.2 hnotin
    simp only [mergeInto]
    refine ⟨?_, ?_⟩
    · intro ks v1 hl
      by_cases hks : ks = k0
      · subst hks
        rw [List.dlookup_cons_eq] at hl
        simp only [Option.some.injEq] at hl
        subst hl
        rw [ih2 (Value.str ks) (fun ks1 h1 => by rw [← Value.str.inj h1]; exact hnone),
          AList.lookup_insert]
      · rw [List.dlookup_cons_ne _ _ hks] at hl
        exact ih1 ks v1 hl
    · intro k hk
      have hkne : k ≠ Value.str k0 := by
        intro hh
        have := hk k0 hh
        rw [List.dlookup_cons_eq] at this
        simp at this
      rw [ih2 k (fun ks h1 => by
        have h2 := hk ks h1
        have hks : ks ≠ k0 := fun hh => hkne (by rw [h1, hh])
        rwa [List.dlookup_cons_ne _ _ hks] at h2), AList.lookup_insert_ne hkne]

theorem decodePayload_isSome (lib : Lib κ) (s : BigcacheStore κ σ Req Resp) (name val : String)
    (dst : Values) :
    (decodePayload lib s name val dst).isSome = true ↔ KnownMethod s.StoreMethod := by
  unfold decodePayload KnownMethod
  split_ifs with h1 h2 h3 <;> simp_all

theorem decodePayload_json (lib : Lib κ) (s : BigcacheStore κ σ Req Resp) (name val : String)
    (dst : Values) (hm : s.StoreMethod = StoreMethodJson) :
    decodePayload lib s name val dst =
      some (match lib.jsonUnmarshal val ∅ with
        | (_, some e) => (dst, some e)
        | (vals, none) => (mergeInto vals.entries dst, none)) := by
  simp [decodePayload, hm, json_ne_securecookie, json_ne_gob]

theorem load_returns (lib : Lib κ) (s : BigcacheStore κ σ Req Resp) (w : World σ)
    (session : Session) (hk : KnownMethod s.StoreMethod) :
    ∃ err, (load lib s w session).2.2 = Outcome.ret err := by
  obtain ⟨-, -, hc⟩ := load_cases lib s w session
  cases hg : (s.Client.Get w.cache (s.KeyPrefix ++ session.ID)).2.2 with
  | some e =>
    rw [hg] at hc
    exact ⟨some e, hc.2⟩
  | none =>
    rw [hg] at hc
    cases hd : decodePayload lib s session.name
        (s.Client.Get w.cache (s.KeyPrefix ++ session.ID)).2.1 session.Values with
    | none =>
      have := (decodePayload_isSome lib s session.name
        (s.Client.Get w.cache (s.KeyPrefix ++ session.ID)).2.1 session.Values).2 hk
      rw [hd] at this
      simp at this
    | some res =>
      rw [hd] at hc
      exact ⟨res.2, hc.2⟩

theorem New_eq (lib : Lib κ) (s : BigcacheStore κ σ Req Resp) (w : World σ) (r : Req)
    (name : String) :
    New lib s w r name =
      match s.ValueStorer.GetValueForSessionName r name with
      | Except.error _ =>
        ({ w with calls := w.calls ++ [Call.GetValueForSessionName name] },
          Outcome.ret (freshSession name s.Options "", none))
      | Except.ok value =>
        match lib.DecodeMultiID name value "" s.Codecs with
        | (id, some err) =>
          ({ w with calls := w.calls ++ [Call.GetValueForSessionName name] },
            Outcome.ret (freshSession name s.Options id, some err))
        | (id, none) =>
          match load lib s { w with calls := w.calls ++ [Call.GetValueForSessionName name] }
              (freshSession name s.Options id) with
          | (w2, _, Outcome.panic msg) => (w2, Outcome.panic msg)
          | (w2, session1, Outcome.ret (some err)) => (w2, Outcome.ret (session1, some err))
          | (w2, session1, Outcome.ret none) =>
            (w2, Outcome.ret ({ session1 with IsNew := false }, none)) :=
  rfl

theorem jsonizeKeys_lookup (values : Values) (vals : StrMap)
    (hj : jsonizeKeys values.entries ∅ = Except.ok vals) :
    (∀ ks, vals.lookup ks = values.lookup (Value.str ks)) ∧
    (∀ k, k ∈ values → ∃ ks, k = Value.str ks) := by
  obtain ⟨j1, j2, j3⟩ := jsonizeKeys_ok values.entries ∅ vals values.nodupKeys hj
  refine ⟨?_, ?_⟩
  · intro ks
    cases hv : values.lookup (Value.str ks) with
    | some v => exact j2 ks v hv
    | none =>
      rw [j3 ks hv]
      exact AList.lookup_empty ks
  · intro k hk
    rw [AList.mem_keys] at hk
    obtain ⟨e, he, rfl⟩ := List.mem_map.1 hk
    exact j1 e he

theorem mergeInto_empty_lookup (D : StrMap) :
    (∀ ks, (mergeInto D.entries ∅).lookup (Value.str ks) = D.lookup ks) ∧
    (∀ k, (∀ ks, k ≠ Value.str ks) → (mergeInto D.entries ∅).lookup k = none) := by
  obtain ⟨m1, m2⟩ := mergeInto_lookup D.entries ∅ D.nodupKeys
  refine ⟨?_, ?_⟩
  · intro ks
    cases hv : D.lookup ks with
    | some v => exact m1 ks v hv
    | none =>
      rw [m2 (Value.str ks) (fun ks1 h => by rw [← Value.str.inj h]; exact hv)]
      exact AList.lookup_empty _
  · intro k hk
    rw [m2 k (fun ks h => absurd h (hk ks))]
    exact AList.lookup_empty _

theorem json_sameMap_iff (values : Values) (vals D : StrMap)
    (hj : jsonizeKeys values.entries ∅ = Except.ok vals) :
    SameMap (mergeInto D.entries ∅) values ↔ SameMap D vals := by
  obtain ⟨j1, j2⟩ := jsonizeKeys_lookup values vals hj
  obtain ⟨m1, m2⟩ := mergeInto_empty_lookup D
  constructor
  · intro h ks
    rw [← m1 ks, h (Value.str ks), j1 ks]
  · intro h k
    cases hk : k.asString with
    | some ks =>
      have hkeq := asString_eq_some hk
      subst hkeq
      rw [m1 ks, h ks, j1 ks]
    | none =>
      have hnot : ∀ ks, k ≠ Value.str ks := by
        intro ks hks
        rw [hks] at hk
        simp [Value.asString] at hk
      rw [m2 k hnot]
      symm
      rw [AList.lookup_eq_none]
      intro hmem
      obtain ⟨ks, hks⟩ := j2 k hmem
      exact hnot ks hks

theorem save_ok_inv (lib : Lib κ) (s : BigcacheStore κ σ Req Resp) (w : World σ)
    (session : Session) (hsave : (save lib s w session).2 = Outcome.ret none) :
    ∃ b, encodePayload lib s session = some (Except.ok b) ∧
      (s.Client.Set w.cache (s.KeyPrefix ++ session.ID) b
        (uint32 session.Options.MaxAge) 0).2.2 = none ∧
      (save lib s w session).1.cache =
        (s.Client.Set w.cache (s.KeyPrefix ++ session.ID) b
          (uint32 session.Options.MaxAge) 0).1 := by
  cases hp : encodePayload lib s session with
  | none =>
    have hk : ¬ KnownMethod s.StoreMethod := by
      rw [← encodePayload_isSome lib s session, hp]
      simp
    rw [save_of_unknown lib s w session hk] at hsave
    simp at hsave
  | some res =>
    cases res with
    | error e =>
      rw [(save_of_encode_error lib s w session e hp).1] at hsave
      simp at hsave
    | ok b =>
      obtain ⟨-, h2, h3⟩ := save_of_encode_ok lib s w session b hp
      rw [h3] at hsave
      exact ⟨b, rfl, by simpa using hsave, h2⟩

theorem load_after_set (lib : Lib κ) (s : BigcacheStore κ σ Req Resp) (w1 : World σ)
    (session session2 : Session) (st : σ) (b : String)
    (hcache : ReturnsLastSet s.Client)
    (hb : encodePayload lib s session = some (Except.ok b))
    (hset : (s.Client.Set st (s.KeyPrefix ++ session.ID) b
      (uint32 session.Options.MaxAge) 0).2.2 = none)
    (hw1 : w1.cache = (s.Client.Set st (s.KeyPrefix ++ session.ID) b
      (uint32 session.Options.MaxAge) 0).1)
    (hID : session2.ID = session.ID) :
    (s.Client.Get w1.cache (s.KeyPrefix ++ session2.ID)).2 = (b, none) ∧
    ∃ out err, decodePayload lib s session2.name b session2.Values = some (out, err) ∧
      (load lib s w1 session2).2.2 = Outcome.ret err ∧
      (load lib s w1 session2).2.1 = { session2 with Values := out } := by
  have hget := hcache st (s.KeyPrefix ++ session.ID) b (uint32 session.Options.MaxAge) 0 hset
  rw [← hw1, ← hID] at hget
  have hk : KnownMethod s.StoreMethod := by
    rw [← encodePayload_isSome lib s session, hb]
    rfl
  obtain ⟨-, -, hc⟩ := load_cases lib s w1 session2
  rw [hget] at hc
  simp only at hc
  refine ⟨hget, ?_⟩
  cases hd : decodePayload lib s session2.name b session2.Values with
  | none =>
    have := (decodePayload_isSome lib s session2.name b session2.Values).2 hk
    rw [hd] at this
    simp at this
  | some res =>
    rw [hd] at hc
    exact ⟨res.1, res.2, rfl, hc.2, hc.1⟩

theorem memCache_returnsLastSet : ReturnsLastSet (GoBigcacher memCache) := by
  intro st key val exp ocas _
  simp [GoBigcacher, memCache, List.lookup]

theorem toyLib_tokenDecodes (m : StoreMethod) (id : String) :
    TokenDecodes toyLib (exampleStore m) "session-name" id := by
  intro tok dst henc
  have h1 : toyLib.EncodeMultiID "session-name" id (exampleStore m).Codecs =
      Except.ok (String.mk ("session-name".data ++ '|' :: id.data)) := rfl
  rw [h1] at henc
  rw [← Except.ok.inj henc]
  simp [toyLib]
  rfl

theorem callsSince_append (w w1 : World σ) (l : List Call) (h : w1.calls = w.calls ++ l) :
    callsSince w.calls.length w1 = l := by
  simp [callsSince, h]

theorem callsSince_same (w w1 : World σ) (h : w1.calls = w.calls) :
    callsSince w.calls.length w1 = [] := by
  simp [callsSince, h]

end Lemmas

/-! ## The session ID -/

section SessionID

variable {κ σ Req Resp : Type}

/-- C3: `Save` gives a session without an ID an ID that is not empty, has 52
characters whatever 32 bytes the random source returned, and consists of
characters `A`-`Z` and `2`-`7` only (so it has no `=`); `Save` leaves an ID
that is not empty as it is, and a second `Save` does not change the ID. -/
theorem Save_assigns_ID_once (lib : Lib κ) (s : BigcacheStore κ σ Req Resp) (w w2 : World σ)
    (r r2 : Req) (rw rw2 : Resp) (session : Session)
    (hrand : (lib.GenerateRandomKey 32).length = 32) :
    (session.ID = "" →
      (Save lib s w r rw session).2.1.ID ≠ "" ∧
      (Save lib s w r rw session).2.1.ID.length = 52 ∧
      ∀ c ∈ (Save lib s w r rw session).2.1.ID.data, isBase32Char c = true) ∧
    (session.ID ≠ "" → (Save lib s w r rw session).2.1.ID = session.ID) ∧
    (Save lib s w2 r2 rw2 (Save lib s w r rw session).2.1).2.1.ID =
      (Save lib s w r rw session).2.1.ID := by
  have hlen : (newID (lib.GenerateRandomKey 32)).length = 52 := by
    rw [newID_length, hrand]
  have hne : newID (lib.GenerateRandomKey 32) ≠ "" := by
    intro h
    rw [h] at hlen
    simp at hlen
  have h1 : (Save lib s w r rw session).2.1 = assignID lib session :=
    (Save_cases lib s w r rw session).1
  have h2 : (Save lib s w2 r2 rw2 (assignID lib session)).2.1 =
      assignID lib (assignID lib session) :=
    (Save_cases lib s w2 r2 rw2 (assignID lib session)).1
  rw [h1, h2]
  unfold assignID
  by_cases hid : session.ID = ""
  · simp only [hid, if_true, hne, if_false]
    exact ⟨fun _ => ⟨hne, hlen, newID_chars _⟩, fun h => absurd rfl h, trivial⟩
  · simp [hid]

/-- A run of `Save_assigns_ID_once`: a session without an ID, a random source
that returns 32 bytes. -/
theorem Save_assigns_ID_once_witness :
    (toyLib.GenerateRandomKey 32).length = 32 ∧
    (exampleSession "" exampleValues).ID = "" ∧
    (Save toyLib (exampleStore "securecookie") emptyWorld none ()
      (exampleSession "" exampleValues)).2.1.ID ≠ "" ∧
    (Save toyLib (exampleStore "securecookie") emptyWorld none ()
      (exampleSession "" exampleValues)).2.1.ID.length = 52 :=
  ⟨by decide, rfl,
    ((Save_assigns_ID_once toyLib (exampleStore "securecookie") emptyWorld emptyWorld none none
      () () (exampleSession "" exampleValues) (by decide)).1 rfl).1,
    ((Save_assigns_ID_once toyLib (exampleStore "securecookie") emptyWorld emptyWorld none none
      () () (exampleSession "" exampleValues) (by decide)).1 rfl).2.1⟩

/-- C4, as stated, fails: with a random source that returns the bytes it is
asked for, the ID `Save` generates has 52 characters, and it is the stripped
base32 encoding of no key of 16 bytes (such an encoding has 26 characters). -/
theorem Save_new_ID_not_of_16_bytes :
    (toyLib.GenerateRandomKey 16).length = 16 ∧
    (Save toyLib (exampleStore "securecookie") emptyWorld none ()
      (exampleSession "" exampleValues)).2.1.ID = zeroID ∧
    ¬ ∃ key : List Nat, key.length = 16 ∧
      (Save toyLib (exampleStore "securecookie") emptyWorld none ()
        (exampleSession "" exampleValues)).2.1.ID = newID key := by
  refine ⟨by decide, by decide, ?_⟩
  rintro ⟨key, hkey, hid⟩
  have h52 : (Save toyLib (exampleStore "securecookie") emptyWorld none ()
      (exampleSession "" exampleValues)).2.1.ID.length = 52 := by decide
  rw [hid, newID_length, hkey] at h52
  simp at h52

/-- C4, amended: the ID `Save` generates is the base32 encoding, with the
trailing `=` stripped, of the 32 bytes (256 bits) it asks the random source
for. -/
theorem Save_new_ID_of_32_bytes (lib : Lib κ) (s : BigcacheStore κ σ Req Resp) (w : World σ)
    (r : Req) (rw : Resp) (session : Session) (hid : session.ID = "")
    (hrand : (lib.GenerateRandomKey 32).length = 32) :
    ∃ key : List Nat, key = lib.GenerateRandomKey 32 ∧ key.length = 32 ∧
      (Save lib s w r rw session).2.1.ID =
        String.mk (TrimRight (EncodeToString key) [padChar]) := by
  refine ⟨lib.GenerateRandomKey 32, rfl, hrand, ?_⟩
  rw [(Save_cases lib s w r rw session).1]
  simp [assignID, hid, newID, padChar]

/-- A run of `Save_new_ID_of_32_bytes`. -/
theorem Save_new_ID_of_32_bytes_witness :
    (exampleSession "" exampleValues).ID = "" ∧
    (toyLib.GenerateRandomKey 32).length = 32 ∧
    ∃ key : List Nat, key = toyLib.GenerateRandomKey 32 ∧ key.length = 32 ∧
      (Save toyLib (exampleStore "gob") emptyWorld none ()
        (exampleSession "" exampleValues)).2.1.ID =
          String.mk (TrimRight (EncodeToString key) [padChar]) :=
  ⟨rfl, by decide,
    Save_new_ID_of_32_bytes toyLib (exampleStore "gob") emptyWorld none ()
      (exampleSession "" exampleValues) rfl (by decide)⟩

end SessionID

/-! ## Saving -/

section Saving

variable {κ σ Req Resp : Type}

/-- C5: when the payload encoding fails, or the cache `Set` fails, or the
token encoding fails, `Save` returns that error and makes no call of
`SetValueForSessionName`; and whenever `Save` calls `SetValueForSessionName`,
the payload was encoded, `Set` was called before and returned no error, and
the token was encoded. -/
theorem Save_error_attaches_no_token (lib : Lib κ) (s : BigcacheStore κ σ Req Resp)
    (w : World σ) (r : Req) (rw : Resp) (session : Session) :
    (∀ e, encodePayload lib s (assignID lib session) = some (Except.error e) →
      (Save lib s w r rw session).2.2 = Outcome.ret (some e) ∧
      ∀ c ∈ callsSince w.calls.length (Save lib s w r rw session).1, c.isSetValue = false) ∧
    (∀ b e, encodePayload lib s (assignID lib session) = some (Except.ok b) →
      (s.Client.Set w.cache (s.KeyPrefix ++ (assignID lib session).ID) b
        (uint32 (assignID lib session).Options.MaxAge) 0).2.2 = some e →
      (Save lib s w r rw session).2.2 = Outcome.ret (some e) ∧
      ∀ c ∈ callsSince w.calls.length (Save lib s w r rw session).1, c.isSetValue = false) ∧
    (∀ b e, encodePayload lib s (assignID lib session) = some (Except.ok b) →
      (s.Client.Set w.cache (s.KeyPrefix ++ (assignID lib session).ID) b
        (uint32 (assignID lib session).Options.MaxAge) 0).2.2 = none →
      lib.EncodeMultiID (assignID lib session).name (assignID lib session).ID s.Codecs =
        Except.error e →
      (Save lib s w r rw session).2.2 = Outcome.ret (some e) ∧
      ∀ c ∈ callsSince w.calls.length (Save lib s w r rw session).1, c.isSetValue = false) ∧
    (∀ c ∈ callsSince w.calls.length (Save lib s w r rw session).1, c.isSetValue = true →
      ∃ b tok, encodePayload lib s (assignID lib session) = some (Except.ok b) ∧
        (s.Client.Set w.cache (s.KeyPrefix ++ (assignID lib session).ID) b
          (uint32 (assignID lib session).Options.MaxAge) 0).2.2 = none ∧
        lib.EncodeMultiID (assignID lib session).name (assignID lib session).ID s.Codecs =
          Except.ok tok ∧
        callsSince w.calls.length (Save lib s w r rw session).1 =
          [Call.Set (s.KeyPrefix ++ (assignID lib session).ID) b
              (uint32 (assignID lib session).Options.MaxAge) 0,
            Call.SetValueForSessionName (assignID lib session).name tok
              (assignID lib session).Options]) := by
  obtain ⟨-, hc⟩ := Save_cases lib s w r rw session
  refine ⟨?_, ?_, ?_, ?_⟩
  · intro e he
    rw [he] at hc
    obtain ⟨h1, h2, -⟩ := hc
    rw [callsSince_same w _ h2]
    exact ⟨h1, by simp⟩
  · intro b e hb hset
    rw [hb] at hc
    simp only [hset] at hc
    obtain ⟨-, h1, h2⟩ := hc
    rw [callsSince_append w _ _ h2]
    exact ⟨h1, by simp [Call.isSetValue]⟩
  · intro b e hb hset htok
    rw [hb] at hc
    simp only [hset, htok] at hc
    obtain ⟨-, h1, h2⟩ := hc
    rw [callsSince_append w _ _ h2]
    exact ⟨h1, by simp [Call.isSetValue]⟩
  · intro c hmem hsv
    cases hp : encodePayload lib s (assignID lib session) with
    | none =>
      rw [hp] at hc
      rw [callsSince_same w _ (by rw [hc.1])] at hmem
      simp at hmem
    | some res =>
      cases res with
      | error e =>
        rw [hp] at hc
        rw [callsSince_same w _ hc.2.1] at hmem
        simp at hmem
      | ok b =>
        rw [hp] at hc
        cases hset : (s.Client.Set w.cache (s.KeyPrefix ++ (assignID lib session).ID) b
            (uint32 (assignID lib session).Options.MaxAge) 0).2.2 with
        | some e =>
          simp only [hset] at hc
          rw [callsSince_append w _ _ hc.2.2] at hmem
          simp only [List.mem_singleton] at hmem
          subst hmem
          simp [Call.isSetValue] at hsv
        | none =>
          cases htok : lib.EncodeMultiID (assignID lib session).name
              (assignID lib session).ID s.Codecs with
          | error e =>
            simp only [hset, htok] at hc
            rw [callsSince_append w _ _ hc.2.2] at hmem
            simp only [List.mem_singleton] at hmem
            subst hmem
            simp [Call.isSetValue] at hsv
          | ok tok =>
            simp only [hset, htok] at hc
            exact ⟨b, tok, rfl, hset, rfl, callsSince_append w _ _ hc.2.2⟩

/-- Three runs of `Save_error_attaches_no_token`: a key that is not a string
under the json method, a cache whose `Set` fails, and a store without codecs.
Each time `Save` returns the error and no call was made to the value storer. -/
theorem Save_error_attaches_no_token_witness :
    (Save toyLib (exampleStore "json") emptyWorld none ()
        (exampleSession "ABC" exampleValues)).2.2 =
      Outcome.ret (some (Error.nonStringKey (Value.int 42))) ∧
    (Save toyLib { exampleStore "gob" with Client := GoBigcacher brokenCache } emptyWorld none ()
        (exampleSession "ABC" exampleValues)).2.2 =
      Outcome.ret (some (Error.external "entry is bigger than max shard size")) ∧
    (Save toyLib { exampleStore "gob" with Codecs := false } emptyWorld none ()
        (exampleSession "ABC" exampleValues)).2.2 =
      Outcome.ret (some (Error.external "securecookie: no codecs provided")) :=
  ⟨((Save_error_attaches_no_token toyLib (exampleStore "json") emptyWorld none ()
      (exampleSession "ABC" exampleValues)).1 _ (by decide)).1,
    ((Save_error_attaches_no_token toyLib
      { exampleStore "gob" with Client := GoBigcacher brokenCache } emptyWorld none ()
      (exampleSession "ABC" exampleValues)).2.1 "gob:foo=bar,42=43" _ (by decide)
        (by decide)).1,
    ((Save_error_attaches_no_token toyLib { exampleStore "gob" with Codecs := false }
      emptyWorld none () (exampleSession "ABC" exampleValues)).2.2.1 "gob:foo=bar,42=43" _
        (by decide) (by decide) (by decide)).1⟩

/-- C6: with the json store method and a key that is not a string among the
values, `save` returns the error made for such a key, makes no call at all (so
none of the cache `Set`), and leaves the cache as it was. -/
theorem save_json_non_string_key (lib : Lib κ) (s : BigcacheStore κ σ Req Resp) (w : World σ)
    (session : Session) (hm : s.StoreMethod = StoreMethodJson)
    (hk : ∃ k ∈ session.Values.keys, k.asString = none) :
    (∃ k ∈ session.Values.keys, k.asString = none ∧
      (save lib s w session).2 = Outcome.ret (some (Error.nonStringKey k))) ∧
    (save lib s w session).1.calls = w.calls ∧
    (save lib s w session).1.cache = w.cache := by
  have hent : ∃ e ∈ session.Values.entries, e.1.asString = none := by
    obtain ⟨k, hmem, hnone⟩ := hk
    obtain ⟨e, he, rfl⟩ := List.mem_map.1 hmem
    exact ⟨e, he, hnone⟩
  obtain ⟨e, he, hnone, hj⟩ := jsonizeKeys_error session.Values.entries ∅ hent
  have hp : encodePayload lib s session = some (Except.error (Error.nonStringKey e.1)) := by
    simp [encodePayload, hm, json_ne_securecookie, json_ne_gob, hj]
  obtain ⟨h1, h2, h3⟩ := save_of_encode_error lib s w session _ hp
  exact ⟨⟨e.1, List.mem_map.2 ⟨e, he, rfl⟩, hnone, h1⟩, h2, h3⟩

/-- A run of `save_json_non_string_key`: the values of the example, with the
key `42`, over a cache that holds an entry under the key of the session. -/
theorem save_json_non_string_key_witness :
    (exampleStore "json").StoreMethod = StoreMethodJson ∧
    (∃ k ∈ exampleValues.keys, k.asString = none) ∧
    (save toyLib (exampleStore "json")
      { cache := [("sess_ABC", "json:foo=bar")], calls := [], logs := [] }
      (exampleSession "ABC" exampleValues)).1.cache = [("sess_ABC", "json:foo=bar")] :=
  ⟨rfl, ⟨Value.int 42, by decide, rfl⟩,
    (save_json_non_string_key toyLib (exampleStore "json")
      { cache := [("sess_ABC", "json:foo=bar")], calls := [], logs := [] }
      (exampleSession "ABC" exampleValues) rfl ⟨Value.int 42, by decide, rfl⟩).2.2⟩

/-- C10, as stated, fails: with `MaxAge` equal to `-1`, `save` calls `Set`
with the expiry `4294967295`. -/
theorem save_negative_MaxAge_expiry :
    (save toyLib (exampleStore "gob") emptyWorld
      { exampleSession "ABC" exampleValues with
        Options := { defaultOptions with MaxAge := -1 } }).1.calls =
      [Call.Set "sess_ABC" "gob:foo=bar,42=43" 4294967295 0] ∧
    ((4294967295 : Nat) : Int) ≠ -1 := by
  exact ⟨by decide, by decide⟩

/-- C10, amended: for each of the three store methods, when the payload
encodes to `b`, `save` makes exactly one call, the call of `Set` with the key
`KeyPrefix` followed by the ID, the value `b`, the cas token 0 and the expiry
`uint32(MaxAge)`, which is `MaxAge` modulo `2^32`: `MaxAge` itself from 0 to
`2^32 - 1`, and `MaxAge + 2^32` from `-2^32` to `-1`. -/
theorem save_calls_Set_once (lib : Lib κ) (s : BigcacheStore κ σ Req Resp) (w : World σ)
    (session : Session) (b : String)
    (h : encodePayload lib s session = some (Except.ok b)) :
    callsSince w.calls.length (save lib s w session).1 =
      [Call.Set (s.KeyPrefix ++ session.ID) b (uint32 session.Options.MaxAge) 0] ∧
    ((uint32 session.Options.MaxAge : Nat) : Int) = session.Options.MaxAge % 2 ^ 32 ∧
    (0 ≤ session.Options.MaxAge → session.Options.MaxAge < 2 ^ 32 →
      ((uint32 session.Options.MaxAge : Nat) : Int) = session.Options.MaxAge) ∧
    (-2 ^ 32 ≤ session.Options.MaxAge → session.Options.MaxAge < 0 →
      ((uint32 session.Options.MaxAge : Nat) : Int) = session.Options.MaxAge + 2 ^ 32) := by
  have hmod : ((uint32 session.Options.MaxAge : Nat) : Int) = session.Options.MaxAge % 2 ^ 32 := by
    unfold uint32
    exact Int.toNat_of_nonneg (Int.emod_nonneg _ (by norm_num))
  refine ⟨callsSince_append w _ _ (save_of_encode_ok lib s w session b h).1, hmod, ?_, ?_⟩
  · intro h0 h1
    rw [hmod]
    exact Int.emod_eq_of_lt h0 h1
  · intro h0 h1
    rw [hmod]
    omega

/-- A run of `save_calls_Set_once`: the default max-age of 30 days. -/
theorem save_calls_Set_once_witness :
    encodePayload toyLib (exampleStore "securecookie") (exampleSession "ABC" exampleValues) =
      some (Except.ok "sc:foo=bar,42=43") ∧
    callsSince 0 (save toyLib (exampleStore "securecookie") emptyWorld
      (exampleSession "ABC" exampleValues)).1 =
      [Call.Set ("sess_" ++ "ABC") "sc:foo=bar,42=43" (uint32 (86400 * 30)) 0] :=
  ⟨by decide,
    (save_calls_Set_once toyLib (exampleStore "securecookie") emptyWorld
      (exampleSession "ABC" exampleValues) "sc:foo=bar,42=43" (by decide)).1⟩

end Saving

/-! ## Loading -/

section Loading

variable {κ σ Req Resp : Type}

/-- C7: with the json store method, when the cache `Get` succeeds and the
payload decodes to `D`, `load` returns no error and leaves values in which
every key of `D` has the value of `D`, every other key has what it had before,
and no further key occurs; when decoding fails, `load` returns the error and
the values are what they were. -/
theorem load_json_merges (lib : Lib κ) (s : BigcacheStore κ σ Req Resp) (w : World σ)
    (session : Session) (hm : s.StoreMethod = StoreMethodJson)
    (hget : (s.Client.Get w.cache (s.KeyPrefix ++ session.ID)).2.2 = none) :
    (∀ D, lib.jsonUnmarshal (s.Client.Get w.cache (s.KeyPrefix ++ session.ID)).2.1 ∅ =
        (D, none) →
      (load lib s w session).2.2 = Outcome.ret none ∧
      (∀ ks v, D.lookup ks = some v →
        (load lib s w session).2.1.Values.lookup (Value.str ks) = some v) ∧
      (∀ k, (∀ ks, k = Value.str ks → D.lookup ks = none) →
        (load lib s w session).2.1.Values.lookup k = session.Values.lookup k) ∧
      (∀ k, k ∈ (load lib s w session).2.1.Values →
        k ∈ session.Values ∨ ∃ ks, k = Value.str ks ∧ ks ∈ D)) ∧
    (∀ D e, lib.jsonUnmarshal (s.Client.Get w.cache (s.KeyPrefix ++ session.ID)).2.1 ∅ =
        (D, some e) →
      (load lib s w session).2.2 = Outcome.ret (some e) ∧
      (load lib s w session).2.1.Values = session.Values) := by
  obtain ⟨-, -, hc⟩ := load_cases lib s w session
  rw [hget] at hc
  simp only [decodePayload_json lib s _ _ _ hm] at hc
  refine ⟨?_, ?_⟩
  · intro D hD
    rw [hD] at hc
    obtain ⟨h1, h2⟩ := hc
    obtain ⟨m1, m2⟩ := mergeInto_lookup D.entries session.Values D.nodupKeys
    have hval : (load lib s w session).2.1.Values = mergeInto D.entries session.Values := by
      rw [h1]
    rw [hval]
    refine ⟨h2, m1, m2, ?_⟩
    intro k hk
    by_contra hcon
    push_neg at hcon
    have hnone : (mergeInto D.entries session.Values).lookup k = none := by
      rw [m2 k (fun ks hks => AList.lookup_eq_none.2 (hcon.2 ks hks))]
      exact AList.lookup_eq_none.2 hcon.1
    exact (AList.lookup_eq_none.1 hnone) hk
  · intro D e hD
    rw [hD] at hc
    obtain ⟨h1, h2⟩ := hc
    exact ⟨h2, by rw [h1]⟩

/-- A run of `load_json_merges`: the session holds `42`, the cache holds the
payload of `"foo"`; after `load` the session holds both. -/
theorem load_json_merges_witness :
    (exampleStore "json").StoreMethod = StoreMethodJson ∧
    ((exampleStore "json").Client.Get [("sess_ABC", "json:foo=bar")] ("sess_" ++ "ABC")).2.2 =
      none ∧
    (load toyLib (exampleStore "json")
      { cache := [("sess_ABC", "json:foo=bar")], calls := [], logs := [] }
      (exampleSession "ABC" (AList.insert (Value.int 42) (Value.int 43) ∅))).2.1.Values.lookup
        (Value.str "foo") = some (Value.str "bar") :=
  ⟨rfl, by decide,
    ((load_json_merges toyLib (exampleStore "json")
      { cache := [("sess_ABC", "json:foo=bar")], calls := [], logs := [] }
      (exampleSession "ABC" (AList.insert (Value.int 42) (Value.int 43) ∅)) rfl
        (by decide)).1 stringKeyVals rfl).2.1 "foo" (Value.str "bar") rfl⟩

/-- C8, as stated, fails: with the store method `xml`, a token that decodes
and a cache that holds the key, `New` panics and returns no session. -/
theorem New_unknown_method_panics :
    (New toyLib (exampleStore "xml") { cache := [("sess_ABC", "sc:")], calls := [], logs := [] }
      (some "session-name|ABC") "session-name").2 =
      Outcome.panic "Unknown StoreMethod: xml" := by
  rfl

/-- C8, amended: with one of the three store methods `New` returns a session.
With any store method: when the value storer returns an error, `New` returns
a session with `IsNew` set and no values, and a nil error; when the token
fails to decode, `New` returns a session with `IsNew` set and no values, and
the error of the decoder; in both cases no call is made to the cache, which
stays as it was. -/
theorem New_without_valid_token (lib : Lib κ) (s : BigcacheStore κ σ Req Resp) (w : World σ)
    (r : Req) (name : String) :
    (KnownMethod s.StoreMethod →
      ∃ session err, (New lib s w r name).2 = Outcome.ret (session, err)) ∧
    (∀ e, s.ValueStorer.GetValueForSessionName r name = Except.error e →
      ∃ session, (New lib s w r name).2 = Outcome.ret (session, none) ∧
        session.IsNew = true ∧ session.Values = ∅ ∧
        (∀ c ∈ callsSince w.calls.length (New lib s w r name).1,
          c.isGet = false ∧ c.isSet = false) ∧
        (New lib s w r name).1.cache = w.cache) ∧
    (∀ value id e, s.ValueStorer.GetValueForSessionName r name = Except.ok value →
      lib.DecodeMultiID name value "" s.Codecs = (id, some e) →
      ∃ session, (New lib s w r name).2 = Outcome.ret (session, some e) ∧
        session.IsNew = true ∧ session.Values = ∅ ∧
        (∀ c ∈ callsSince w.calls.length (New lib s w r name).1,
          c.isGet = false ∧ c.isSet = false) ∧
        (New lib s w r name).1.cache = w.cache) := by
  rw [New_eq]
  refine ⟨?_, ?_, ?_⟩
  · intro hk
    cases hv : s.ValueStorer.GetValueForSessionName r name with
    | error e => exact ⟨_, _, rfl⟩
    | ok value =>
      dsimp only
      rcases hd : lib.DecodeMultiID name value "" s.Codecs with ⟨id, _ | e⟩
      · obtain ⟨err, herr⟩ := load_returns lib s
          { w with calls := w.calls ++ [Call.GetValueForSessionName name] }
          (freshSession name s.Options id) hk
        rcases hl : load lib s
          { w with calls := w.calls ++ [Call.GetValueForSessionName name] }
          (freshSession name s.Options id) with ⟨w2, session1, out⟩
        rw [hl] at herr
        simp only at herr
        subst herr
        cases err with
        | none => exact ⟨_, _, by dsimp only; rw [hl]⟩
        | some e => exact ⟨_, _, by dsimp only; rw [hl]⟩
      · exact ⟨_, _, rfl⟩
  · intro e hv
    rw [hv]
    exact ⟨_, rfl, rfl, rfl, by simp [callsSince, Call.isGet, Call.isSet], rfl⟩
  · intro value id e hv hd
    rw [hv]
    dsimp only
    rw [hd]
    exact ⟨_, rfl, rfl, rfl, by simp [callsSince, Call.isGet, Call.isSet], rfl⟩

/-- Three runs of `New_without_valid_token`: a request without a token, a
request whose token is not valid, and a request with a token over an empty
cache. -/
theorem New_without_valid_token_witness :
    KnownMethod (exampleStore "gob").StoreMethod ∧
    (∃ session err, (New toyLib (exampleStore "gob") emptyWorld (some "session-name|ABC")
      "session-name").2 = Outcome.ret (session, err)) ∧
    (∃ session, (New toyLib (exampleStore "gob") emptyWorld none "session-name").2 =
      Outcome.ret (session, none) ∧ session.IsNew = true) ∧
    (∃ session, (New toyLib (exampleStore "gob") emptyWorld (some "forged") "session-name").2 =
      Outcome.ret (session, some (Error.external "securecookie: the value is not valid")) ∧
      session.IsNew = true) :=
  ⟨by decide,
    (New_without_valid_token toyLib (exampleStore "gob") emptyWorld (some "session-name|ABC")
      "session-name").1 (by decide),
    Exists.imp (fun _ h => ⟨h.1, h.2.1⟩)
      ((New_without_valid_token toyLib (exampleStore "gob") emptyWorld none
        "session-name").2.1 _ rfl),
    Exists.imp (fun _ h => ⟨h.1, h.2.1⟩)
      ((New_without_valid_token toyLib (exampleStore "gob") emptyWorld (some "forged")
        "session-name").2.2 "forged" "" _ rfl (by decide))⟩

/-- C9, as stated, fails: with the store method `xml` and a cache that does
not hold the key, `load` returns the error of `Get` and does not panic. -/
theorem load_unknown_method_cache_miss :
    ¬ KnownMethod (exampleStore "xml").StoreMethod ∧
    ((exampleStore "xml").Client.Get emptyWorld.cache ("sess_" ++ "ABC")).2.2 =
      some (Error.external "Entry not found") ∧
    (load toyLib (exampleStore "xml") emptyWorld (exampleSession "ABC" ∅)).2.2 =
      Outcome.ret (some (Error.external "Entry not found")) := by
  exact ⟨by decide, by decide, by decide⟩

/-- C9, amended: with a store method that is none of the three, `save`
panics without a call and leaves the world as it was; `load` makes the one
call of `Get`, panics when `Get` succeeds, and returns the error of `Get` when
`Get` fails. -/
theorem unknown_method_panics (lib : Lib κ) (s : BigcacheStore κ σ Req Resp) (w : World σ)
    (session : Session) (h : ¬ KnownMethod s.StoreMethod) :
    save lib s w session = (w, Outcome.panic ("Unknown StoreMethod: " ++ s.StoreMethod)) ∧
    callsSince w.calls.length (load lib s w session).1 =
      [Call.Get (s.KeyPrefix ++ session.ID)] ∧
    ((s.Client.Get w.cache (s.KeyPrefix ++ session.ID)).2.2 = none →
      (load lib s w session).2.2 =
        Outcome.panic ("Unknown StoreMethod: " ++ s.StoreMethod)) ∧
    (∀ e, (s.Client.Get w.cache (s.KeyPrefix ++ session.ID)).2.2 = some e →
      (load lib s w session).2.2 = Outcome.ret (some e)) := by
  obtain ⟨hcalls, -, hc⟩ := load_cases lib s w session
  refine ⟨save_of_unknown lib s w session h, callsSince_append w _ _ hcalls, ?_, ?_⟩
  · intro hget
    rw [hget] at hc
    cases hd : decodePayload lib s session.name
        (s.Client.Get w.cache (s.KeyPrefix ++ session.ID)).2.1 session.Values with
    | none =>
      rw [hd] at hc
      exact hc.2
    | some res =>
      have hs := (decodePayload_isSome lib s session.name
        (s.Client.Get w.cache (s.KeyPrefix ++ session.ID)).2.1 session.Values).1
        (by rw [hd]; rfl)
      exact absurd hs h
  · intro e hget
    rw [hget] at hc
    exact hc.2

/-- A run of `unknown_method_panics` with the store method `xml`: `save`
panics, and `load` panics over a cache that holds the key. -/
theorem unknown_method_panics_witness :
    ¬ KnownMethod (exampleStore "xml").StoreMethod ∧
    save toyLib (exampleStore "xml") emptyWorld (exampleSession "ABC" exampleValues) =
      (emptyWorld, Outcome.panic "Unknown StoreMethod: xml") ∧
    (load toyLib (exampleStore "xml")
      { cache := [("sess_ABC", "sc:")], calls := [], logs := [] }
      (exampleSession "ABC" ∅)).2.2 = Outcome.panic "Unknown StoreMethod: xml" :=
  ⟨by decide,
    (unknown_method_panics toyLib (exampleStore "xml") emptyWorld
      (exampleSession "ABC" exampleValues) (by decide)).1,
    (unknown_method_panics toyLib (exampleStore "xml")
      { cache := [("sess_ABC", "sc:")], calls := [], logs := [] }
      (exampleSession "ABC" ∅) (by decide)).2.2.1 (by decide)⟩

end Loading

/-! ## Round trips -/

section RoundTrip

variable {κ σ Req Resp : Type}

/-- C1, as stated, fails: with the json store method and the values in which
`"n"` is the `int` 43, over a cache that returns what was last set, `save` and
then `load` both return no error, and `load` leaves `"n"` as the `float64` 43:
the values loaded are not the values saved. -/
theorem save_then_load_json_number :
    ReturnsLastSet (exampleStore "json").Client ∧
    (save toyLib (exampleStore "json") emptyWorld (exampleSession "ABC" numberValues)).2 =
      Outcome.ret none ∧
    (load toyLib (exampleStore "json")
      (save toyLib (exampleStore "json") emptyWorld (exampleSession "ABC" numberValues)).1
      (exampleSession "ABC" ∅)).2.2 = Outcome.ret none ∧
    (load toyLib (exampleStore "json")
      (save toyLib (exampleStore "json") emptyWorld (exampleSession "ABC" numberValues)).1
      (exampleSession "ABC" ∅)).2.1.Values.lookup (Value.str "n") =
        some (Value.float64 43) ∧
    numberValues.lookup (Value.str "n") = some (Value.int 43) ∧
    ¬ SameMap (load toyLib (exampleStore "json")
      (save toyLib (exampleStore "json") emptyWorld (exampleSession "ABC" numberValues)).1
      (exampleSession "ABC" ∅)).2.1.Values numberValues := by
  have h1 : (load toyLib (exampleStore "json")
      (save toyLib (exampleStore "json") emptyWorld (exampleSession "ABC" numberValues)).1
      (exampleSession "ABC" ∅)).2.1.Values.lookup (Value.str "n") =
        some (Value.float64 43) := by decide
  have h2 : numberValues.lookup (Value.str "n") = some (Value.int 43) := by decide
  refine ⟨memCache_returnsLastSet, by decide, by decide, h1, h2, ?_⟩
  intro h
  have h3 := h (Value.str "n")
  rw [h1, h2] at h3
  exact absurd h3 (by decide)

/-- C1, amended: over a cache that returns what was last set, when `save`
returns no error, it has written one payload `b` under the key `KeyPrefix`
followed by the ID, and `load` on a session with the same ID and name and no
values reads `b` under that key and ends as the decoder of the store method
does on `b`: it returns the decoder's error (nil when the decoder succeeds) and
leaves the decoder's output as the values.  With the json method the payload
is the marshalled string-keyed copy of the values, and after a successful
decode to `D` the values hold under each string key what `D` holds, and
nothing under another key; they are equal to the saved values exactly when `D`
is equal to the copy that was marshalled. -/
theorem save_then_load_decodes (lib : Lib κ) (s : BigcacheStore κ σ Req Resp) (w : World σ)
    (session session2 : Session)
    (hcache : ReturnsLastSet s.Client)
    (hsave : (save lib s w session).2 = Outcome.ret none)
    (hID : session2.ID = session.ID) (hname : session2.name = session.name)
    (hvalues : session2.Values = ∅) :
    ∃ b out err,
      callsSince w.calls.length (save lib s w session).1 =
        [Call.Set (s.KeyPrefix ++ session.ID) b (uint32 session.Options.MaxAge) 0] ∧
      (s.Client.Get (save lib s w session).1.cache (s.KeyPrefix ++ session2.ID)).2 =
        (b, none) ∧
      (load lib s (save lib s w session).1 session2).2.2 = Outcome.ret err ∧
      (load lib s (save lib s w session).1 session2).2.1.Values = out ∧
      KnownMethod s.StoreMethod ∧
      (s.StoreMethod = StoreMethodSecureCookie →
        lib.EncodeMultiValues session.name session.Values s.Codecs = Except.ok b ∧
        lib.DecodeMultiValues session.name b ∅ s.Codecs = (out, err)) ∧
      (s.StoreMethod = StoreMethodGob →
        lib.gobEncode session.Values = Except.ok b ∧ lib.gobDecode b ∅ = (out, err)) ∧
      (s.StoreMethod = StoreMethodJson →
        ∃ vals D,
          jsonizeKeys session.Values.entries ∅ = Except.ok vals ∧
          (∀ ks, vals.lookup ks = session.Values.lookup (Value.str ks)) ∧
          lib.jsonMarshal vals = Except.ok b ∧
          lib.jsonUnmarshal b ∅ = (D, err) ∧
          (err = none →
            (∀ ks, out.lookup (Value.str ks) = D.lookup ks) ∧
            (∀ k, (∀ ks, k ≠ Value.str ks) → out.lookup k = none) ∧
            (SameMap out session.Values ↔ SameMap D vals)) ∧
          (err ≠ none → out = ∅)) := by
  obtain ⟨b, hb, hset, hw1⟩ := save_ok_inv lib s w session hsave
  obtain ⟨hget, out, err, hdec, hret, hsess⟩ := load_after_set lib s (save lib s w session).1
    session session2 w.cache b hcache hb hset hw1 hID
  rw [hname, hvalues] at hdec
  have hk : KnownMethod s.StoreMethod := by
    rw [← encodePayload_isSome lib s session, hb]
    rfl
  refine ⟨b, out, err, callsSince_append w _ _ (save_of_encode_ok lib s w session b hb).1,
    hget, hret, by rw [hsess], hk, ?_, ?_, ?_⟩
  · intro h
    unfold encodePayload at hb
    unfold decodePayload at hdec
    simp only [h, if_true, Option.some.injEq] at hb hdec
    exact ⟨hb, hdec⟩
  · intro h
    unfold encodePayload at hb
    unfold decodePayload at hdec
    simp only [h, gob_ne_securecookie, if_true, if_false, Option.some.injEq] at hb hdec
    exact ⟨hb, hdec⟩
  · intro h
    unfold encodePayload at hb
    simp only [h, json_ne_securecookie, json_ne_gob, if_true, if_false,
      Option.some.injEq] at hb
    rw [decodePayload_json lib s _ _ _ h] at hdec
    simp only [Option.some.injEq] at hdec
    cases hj : jsonizeKeys session.Values.entries ∅ with
    | error e1 => simp [hj] at hb
    | ok vals =>
      simp only [hj] at hb
      obtain ⟨j1, -⟩ := jsonizeKeys_lookup session.Values vals hj
      rcases hu : lib.jsonUnmarshal b ∅ with ⟨D, _ | e1⟩
      · rw [hu] at hdec
        simp only [Prod.mk.injEq] at hdec
        obtain ⟨ho, he⟩ := hdec
        subst ho
        subst he
        obtain ⟨m1, m2⟩ := mergeInto_empty_lookup D
        exact ⟨vals, D, rfl, j1, hb, rfl,
          fun _ => ⟨m1, m2, json_sameMap_iff session.Values vals D hj⟩,
          fun hne => absurd rfl hne⟩
      · rw [hu] at hdec
        simp only [Prod.mk.injEq] at hdec
        obtain ⟨ho, he⟩ := hdec
        subst ho
        subst he
        exact ⟨vals, D, rfl, j1, hb, rfl, fun hn => by simp at hn, fun _ => rfl⟩

/-- A run of `save_then_load_decodes` with the json method over the in-memory
cache: `load` ends as the decoder does. -/
theorem save_then_load_decodes_witness :
    ReturnsLastSet (exampleStore "json").Client ∧
    (save toyLib (exampleStore "json") emptyWorld
      (exampleSession "ABC" stringKeyValues)).2 = Outcome.ret none ∧
    ∃ out err,
      (load toyLib (exampleStore "json")
        (save toyLib (exampleStore "json") emptyWorld (exampleSession "ABC" stringKeyValues)).1
        (exampleSession "ABC" ∅)).2.2 = Outcome.ret err ∧
      (load toyLib (exampleStore "json")
        (save toyLib (exampleStore "json") emptyWorld (exampleSession "ABC" stringKeyValues)).1
        (exampleSession "ABC" ∅)).2.1.Values = out :=
  ⟨memCache_returnsLastSet, by decide,
    match save_then_load_decodes toyLib (exampleStore "json") emptyWorld
      (exampleSession "ABC" stringKeyValues) (exampleSession "ABC" ∅) memCache_returnsLastSet
      (by decide) rfl rfl rfl with
    | ⟨_, out, err, h⟩ => ⟨out, err, h.2.2.1, h.2.2.2.1⟩⟩

/-- C2, as stated, fails, in three runs of `New`, `Save` and `New` with the
token `Save` gave to the value storer.  With the json method and the `int` 43
set under `"n"`, the second `New` returns a nil error and `IsNew` unset, but
`"n"` is the `float64` 43.  Over a cache that has evicted the entry, and with
codecs that refuse a token younger than their minimum age, `Save` returns no
error and the second `New` returns an error and `IsNew` set. -/
theorem New_Save_New_fails :
    ((New toyLib (exampleStore "json") emptyWorld none "session-name").2 =
        Outcome.ret (freshSession "session-name" defaultOptions "", none) ∧
      (savedWith toyLib (exampleStore "json") numberValues).2.2 = Outcome.ret none ∧
      (savedWith toyLib (exampleStore "json") numberValues).1.calls.getLast? =
        some (Call.SetValueForSessionName "session-name" zeroToken defaultOptions) ∧
      numberValues.lookup (Value.str "n") = some (Value.int 43) ∧
      ∃ w3 session3,
        New toyLib (exampleStore "json") (savedWith toyLib (exampleStore "json") numberValues).1
          (some zeroToken) "session-name" = (w3, Outcome.ret (session3, none)) ∧
        session3.IsNew = false ∧
        session3.Values.lookup (Value.str "n") = some (Value.float64 43)) ∧
    ((New toyLib { exampleStore "gob" with Client := GoBigcacher forgetfulCache } emptyWorld
        none "session-name").2 =
        Outcome.ret (freshSession "session-name" defaultOptions "", none) ∧
      (savedWith toyLib { exampleStore "gob" with Client := GoBigcacher forgetfulCache }
        exampleValues).2.2 = Outcome.ret none ∧
      (savedWith toyLib { exampleStore "gob" with Client := GoBigcacher forgetfulCache }
        exampleValues).1.calls.getLast? =
        some (Call.SetValueForSessionName "session-name" zeroToken defaultOptions) ∧
      ∃ w3 session3,
        New toyLib { exampleStore "gob" with Client := GoBigcacher forgetfulCache }
          (savedWith toyLib { exampleStore "gob" with Client := GoBigcacher forgetfulCache }
            exampleValues).1 (some zeroToken) "session-name" =
          (w3, Outcome.ret (session3, some (Error.external "Entry not found"))) ∧
        session3.IsNew = true) ∧
    ((New minAgeLib (exampleStore "gob") emptyWorld none "session-name").2 =
        Outcome.ret (freshSession "session-name" defaultOptions "", none) ∧
      (savedWith minAgeLib (exampleStore "gob") exampleValues).2.2 = Outcome.ret none ∧
      (savedWith minAgeLib (exampleStore "gob") exampleValues).1.calls.getLast? =
        some (Call.SetValueForSessionName "session-name" zeroToken defaultOptions) ∧
      ∃ w3 session3,
        New minAgeLib (exampleStore "gob")
          (savedWith minAgeLib (exampleStore "gob") exampleValues).1 (some zeroToken)
          "session-name" =
          (w3, Outcome.ret (session3,
            some (Error.external "securecookie: timestamp is too new"))) ∧
        session3.IsNew = true) := by
  refine ⟨⟨rfl, by decide, by decide, by decide, ⟨_, _, rfl, rfl, rfl⟩⟩,
    ⟨rfl, by decide, by decide, ⟨_, _, rfl, rfl⟩⟩,
    ⟨rfl, by decide, by decide, ⟨_, _, rfl, rfl⟩⟩⟩

/-- C2, amended: over a cache that returns what was last set and with a token
codec that decodes the token it made for the ID: `New` on a request without a
token, then the values set, then a `Save` that returns no error, then `New` on
a request that carries the token `Save` gave to the value storer, returns a
session with the ID of the saved session, and ends as the decoder of the store
method does on the payload `b` that `Save` encoded from the values set: it
returns the decoder's error, `IsNew` is unset exactly when that error is nil,
and the values are the decoder's output.  With the json method and a
successful decode to `D`, the values are equal to the values set exactly when
`D` is equal to their string-keyed copy. -/
theorem New_Save_New_decodes (lib : Lib κ) (s : BigcacheStore κ σ Req Resp)
    (w w1 w2 : World σ) (r1 r2 : Req) (rw : Resp) (name tok : String) (values : Values)
    (opts : Options) (session0 session2 : Session) (e : Error)
    (hcache : ReturnsLastSet s.Client)
    (hnotoken : s.ValueStorer.GetValueForSessionName r1 name = Except.error e)
    (hnew : New lib s w r1 name = (w1, Outcome.ret (session0, none)))
    (hsave : Save lib s w1 r1 rw { session0 with Values := values } =
      (w2, session2, Outcome.ret none))
    (hcodec : TokenDecodes lib s name session2.ID)
    (htok : w2.calls.getLast? = some (Call.SetValueForSessionName name tok opts))
    (hreq : s.ValueStorer.GetValueForSessionName r2 name = Except.ok tok) :
    ∃ b out err w3 session3,
      session2.name = name ∧ session2.Values = values ∧
      encodePayload lib s session2 = some (Except.ok b) ∧
      decodePayload lib s name b ∅ = some (out, err) ∧
      New lib s w2 r2 name = (w3, Outcome.ret (session3, err)) ∧
      session3.ID = session2.ID ∧
      session3.Values = out ∧
      session3.IsNew = err.isSome ∧
      (s.StoreMethod = StoreMethodJson →
        ∀ vals D, jsonizeKeys values.entries ∅ = Except.ok vals →
          lib.jsonUnmarshal b ∅ = (D, none) →
          (SameMap session3.Values values ↔ SameMap D vals)) := by
  -- the first `New` returns the fresh session
  rw [New_eq, hnotoken] at hnew
  simp only [Prod.mk.injEq, Outcome.ret.injEq, and_true] at hnew
  obtain ⟨-, hs0⟩ := hnew
  subst hs0
  -- what the successful `Save` did
  obtain ⟨hsess, hc⟩ := Save_cases lib s w1 r1 rw
    { freshSession name s.Options "" with Values := values }
  rw [hsave] at hsess hc
  simp only at hsess hc
  have hname : session2.name = name := by rw [hsess]; unfold assignID; split_ifs <;> rfl
  have hvals : session2.Values = values := by rw [hsess]; unfold assignID; split_ifs <;> rfl
  rw [← hsess] at hc
  cases hp : encodePayload lib s session2 with
  | none => rw [hp] at hc; simp at hc
  | some res =>
    cases res with
    | error e1 => rw [hp] at hc; simp at hc
    | ok b =>
      rw [hp] at hc
      simp only at hc
      obtain ⟨hcache2, hc⟩ := hc
      cases hset : (s.Client.Set w1.cache (s.KeyPrefix ++ session2.ID) b
          (uint32 session2.Options.MaxAge) 0).2.2 with
      | some e1 => rw [hset] at hc; simp at hc
      | none =>
        rw [hset] at hc
        simp only at hc
        cases henc : lib.EncodeMultiID session2.name session2.ID s.Codecs with
        | error e1 => rw [henc] at hc; simp at hc
        | ok tok1 =>
          rw [henc] at hc
          simp only at hc
          obtain ⟨-, hcalls⟩ := hc
          -- the token handed to the value storer is the encoded one
          have htok1 : tok1 = tok := by
            rw [hcalls] at htok
            simp at htok
            exact htok.2.1
          subst htok1
          rw [hname] at henc
          have hdec := hcodec tok1 "" henc
          -- the second `New`
          obtain ⟨-, out, err, hpay, hret, hload⟩ := load_after_set lib s
            { w2 with calls := w2.calls ++ [Call.GetValueForSessionName name] }
            session2 (freshSession name s.Options session2.ID) w1.cache b hcache hp hset
            hcache2 rfl
          have hpay1 : decodePayload lib s name b ∅ = some (out, err) := hpay
          have hjson : s.StoreMethod = StoreMethodJson →
              ∀ vals D, jsonizeKeys values.entries ∅ = Except.ok vals →
                lib.jsonUnmarshal b ∅ = (D, none) →
                (SameMap out values ↔ SameMap D vals) := by
            intro hm vals D hj hu
            rw [decodePayload_json lib s _ _ _ hm, hu] at hpay1
            simp only [Option.some.injEq, Prod.mk.injEq] at hpay1
            rw [← hpay1.1]
            exact json_sameMap_iff values vals D hj
          rw [New_eq, hreq]
          dsimp only
          rw [hdec]
          dsimp only
          rcases hl : load lib s
            { w2 with calls := w2.calls ++ [Call.GetValueForSessionName name] }
            (freshSession name s.Options session2.ID) with ⟨w3, session1, outc⟩
          rw [hl] at hret hload
          simp only at hret hload
          subst hret
          subst hload
          cases err with
          | none =>
            exact ⟨b, out, none, w3, _, hname, hvals, rfl, hpay1, rfl, rfl, rfl, rfl, hjson⟩
          | some e1 =>
            exact ⟨b, out, some e1, w3, _, hname, hvals, rfl, hpay1, rfl, rfl, rfl, rfl, hjson⟩

/-- A run of `New_Save_New_decodes` with the securecookie method over the
in-memory cache: the session is saved under the ID made from 32 zero bytes and
found again by a request that carries the token. -/
theorem New_Save_New_decodes_witness :
    ReturnsLastSet (exampleStore "securecookie").Client ∧
    TokenDecodes toyLib (exampleStore "securecookie") "session-name" savedExample.2.1.ID ∧
    savedExample.2.2 = Outcome.ret none ∧
    savedExample.1.calls.getLast? =
      some (Call.SetValueForSessionName "session-name" zeroToken defaultOptions) ∧
    ∃ err w3 session3,
      New toyLib (exampleStore "securecookie") savedExample.1 (some zeroToken) "session-name" =
        (w3, Outcome.ret (session3, err)) ∧
      session3.ID = savedExample.2.1.ID ∧ session3.IsNew = err.isSome :=
  ⟨memCache_returnsLastSet, toyLib_tokenDecodes _ _, by decide, by decide,
    match New_Save_New_decodes toyLib (exampleStore "securecookie") emptyWorld worldAfterNew
      savedExample.1 none (some zeroToken) () "session-name" zeroToken exampleValues
      defaultOptions (freshSession "session-name" defaultOptions "") savedExample.2.1
      (Error.external "header not found") memCache_returnsLastSet rfl rfl rfl
      (toyLib_tokenDecodes _ _) (by decide) rfl with
    | ⟨_, _, err, w3, session3, h⟩ =>
      ⟨err, w3, session3, h.2.2.2.2.1, h.2.2.2.2.2.1, h.2.2.2.2.2.2.2.1⟩⟩

end RoundTrip

end Gsb
